import Mathlib

/-!
# Verification of the backlog-mcp issue-to-file reconciliation engine

Shallow embedding of `src/services/TaskFileManager.ts` and the relevant
tool handlers of `src/server.ts`.  JavaScript strings are modelled as Lean
`String`s; the JS string primitives used by the source (`split('\n')`,
`join('\n')`, `trim()`, `startsWith`, one-shot `replace`, `endsWith`,
`toLowerCase`) are given explicit executable models below.  The filesystem
is modelled as a list of files, each with a directory path (segments
relative to the tasks root), a name and a content string; the list order
plays the role of the (implementation-defined) recursive traversal order
of the directory tree.  Directories exist implicitly (`ensureDir` has no
observable effect beyond the files written into a directory).
-/

namespace BacklogMcp

/-! ## JS string primitives, on `List Char` -/

/-- Whitespace as trimmed by JS `String.prototype.trim` (the characters
relevant here: space, tab, LF, CR, VT, FF). -/
def isWsChar (c : Char) : Bool :=
  c = ' ' || c = '\t' || c = '\n' || c = '\x0d' || c = '\x0b' || c = '\x0c'

/-- JS `s.trim()` on a character list. -/
def jsTrimL (l : List Char) : List Char :=
  ((l.dropWhile isWsChar).reverse.dropWhile isWsChar).reverse

/-- JS `s.trim()`. -/
def jsTrim (s : String) : String := ⟨jsTrimL s.toList⟩

/-- JS `s.split(sep)` for a single-character separator: `"".split` is
`[""]`, a trailing separator yields a trailing empty piece. -/
def jsSplitL (sep : Char) : List Char → List (List Char)
  | [] => [[]]
  | c :: cs =>
    if c = sep then [] :: jsSplitL sep cs
    else
      match jsSplitL sep cs with
      | h :: t => (c :: h) :: t
      | [] => [[c]]

/-- JS `parts.join(sep)` for a single-character separator. -/
def jsJoinL (sep : Char) : List (List Char) → List Char
  | [] => []
  | [l] => l
  | l :: ls => l ++ sep :: jsJoinL sep ls

/-- JS `s.replace(pat, repl)` with a string pattern: replace the first
occurrence only. -/
def replaceFirstL (pat repl : List Char) : List Char → List Char
  | [] => []
  | c :: cs =>
    if pat.isPrefixOf (c :: cs) then repl ++ (c :: cs).drop pat.length
    else c :: replaceFirstL pat repl cs

/-- JS `Array.prototype.find` over the line list. -/
def jsFind (p : List Char → Bool) : List (List Char) → Option (List Char)
  | [] => none
  | l :: ls => if p l then some l else jsFind p ls

/-- JS `Array.prototype.findIndex` (as an `Option Nat`; JS returns -1 for
"not found", which the source tests with `!== -1`). -/
def jsFindIndex (p : List Char → Bool) : List (List Char) → Option Nat
  | [] => none
  | l :: ls => if p l then some 0 else (jsFindIndex p ls).map (· + 1)

/-- Substring test (used to state what a result message does or does not
report). -/
def listContainsSub (pat : List Char) : List Char → Bool
  | [] => pat.isEmpty
  | c :: cs => pat.isPrefixOf (c :: cs) || listContainsSub pat cs

/-- Substring test on `String`. -/
def containsSub (s pat : String) : Bool := listContainsSub pat.toList s.toList

/-- JS `s.endsWith(t)`. -/
def strEndsWith (s t : String) : Bool := t.toList.isSuffixOf s.toList

/-- Drop the last three characters (used for `path.basename(p, '.md')`). -/
def dropLast3 (l : List Char) : List Char := (l.reverse.drop 3).reverse

/-- JS `s.toLowerCase()` (ASCII range; the type names compared by the
engine are ASCII). -/
def jsToLower (s : String) : String := ⟨s.toList.map Char.toLower⟩

/-! ## The regular expressions of `TaskFileManager.ts` -/

/-- `[A-Z]` of the source's regexes (ASCII uppercase). -/
def isUpperAZ (c : Char) : Bool := 'A' ≤ c && c ≤ 'Z'

/-- `\d` of the source's regexes (ASCII digit). -/
def isDigit09 (c : Char) : Bool := '0' ≤ c && c ≤ '9'

/-- Consume one-or-more characters satisfying `p` (the greedy `p+` of a
regex whose follow-set is disjoint from `p`); returns the rest. -/
def munch1 (p : Char → Bool) : List Char → Option (List Char)
  | [] => none
  | c :: cs => if p c then some (cs.dropWhile p) else none

/-- The common `^[A-Z]+-\d+` prefix of the source's three regexes: on a
match, returns the characters following the digits (both quantifiers are
greedy, and in each regex the character allowed after them is outside the
class, so greedy matching is exact). -/
def keyNumPrefix (l : List Char) : Option (List Char) :=
  match munch1 isUpperAZ l with
  | some ('-' :: rest) => munch1 isDigit09 rest
  | _ => none

/-- JS regex test `/^[A-Z]+-\d+$/` — a bare issue-key directory name. -/
def bareKeyPattern (s : String) : Bool :=
  keyNumPrefix s.toList = some []

/-- JS regex test `/^[A-Z]+-\d+\.md$/` — a task-file name. -/
def taskFileNamePattern (s : String) : Bool :=
  keyNumPrefix s.toList = some ['.', 'm', 'd']

/-- JS regex test `/^[A-Z]+-\d+[-._].+/` (`isCustomParentFolder`): issue
key, a separator, then at least one further (non-newline) character; the
regex is unanchored at the right. -/
def isCustomParentFolder (s : String) : Bool :=
  match keyNumPrefix s.toList with
  | some (sep :: c :: _) => (sep = '-' || sep = '.' || sep = '_') && c ≠ '\n'
  | _ => false

/-! ## Task-file content: `generateMarkdownContent` and the parsing half
of `readTaskFile` -/

/-- `TaskFileManager.generateMarkdownContent`: a level-1 heading with the
title, a blank line, then the description verbatim (omitted when the
description is empty or whitespace-only). -/
def generateMarkdownContent (title description : String) : String :=
  "# " ++ title ++ "\n\n" ++ (if jsTrim description ≠ "" then description else "")

/-- The pure parsing core of `TaskFileManager.readTaskFile`: split into
lines, take the first line starting with `"# "` as the title (with the
first `"# "` removed, trimmed), and everything after that line, re-joined
and trimmed, as the description. -/
def parseTaskContent (content : String) : String × String :=
  let lines := jsSplitL '\n' content.toList
  let startsHash : List Char → Bool := fun l => ('#' :: ' ' :: []).isPrefixOf l
  let title : List Char :=
    match jsFind startsHash lines with
    | some tl => jsTrimL (replaceFirstL ['#', ' '] [] tl)
    | none => []
  let description : List Char :=
    match jsFindIndex startsHash lines with
    | some i => jsTrimL (jsJoinL '\n' (lines.drop (i + 1)))
    | none => []
  (⟨title⟩, ⟨description⟩)

/-! ## Data model (`src/types/backlog.ts`, the fields the engine reads) -/

/-- `IssueType` (only `name` is ever read by the engine). -/
structure IssueType where
  name : String
deriving DecidableEq, Repr

/-- `Priority`. -/
structure Priority where
  name : String
deriving DecidableEq, Repr

/-- `Status`. -/
structure Status where
  name : String
deriving DecidableEq, Repr

/-- `User`. -/
structure User where
  name : String
deriving DecidableEq, Repr

/-- `BacklogIssue`, restricted to the fields the reconciliation engine
reads (`category`/`versions`/`milestone` are kept as their name lists, the
only part the engine projects out). -/
structure BacklogIssue where
  id : Nat
  projectId : Nat
  issueKey : String
  keyId : Nat
  issueType : IssueType
  summary : String
  description : String
  priority : Priority
  status : Status
  category : List String
  versions : List String
  milestone : List String
  parentIssueId : Option Nat
  createdUser : User
  created : String
deriving DecidableEq, Repr

/-- JS truthiness of `issue.parentIssueId`: `undefined` and `0` are both
falsy. -/
def parentId? (i : BacklogIssue) : Option Nat :=
  match i.parentIssueId with
  | some pid => if pid = 0 then none else some pid
  | none => none

/-- A node of the relationship tree built by `buildIssueTreeMap`. -/
structure TreeNode where
  issue : BacklogIssue
  parent : Option BacklogIssue
  children : List BacklogIssue
deriving DecidableEq, Repr

/-! ## Filesystem model -/

/-- A directory path: segments relative to the tasks root (`[]` is the
root itself, `["others"]` the catch-all). -/
abbrev Dir := List String

/-- One file on disk. -/
structure FsFile where
  dir : Dir
  name : String
  content : String
deriving DecidableEq, Repr

/-- The task directory's state: its files in the (implementation-defined
but fixed within a run) recursive traversal order. -/
abbrev FS := List FsFile

/-- The resolved tasks directory's own basename (the default `.tasks`):
`path.basename` of the containing directory of a file that sits directly
in the tasks root. -/
def tasksDirName : String := ".tasks"

/-- `path.basename(dir)` for a directory path of the model. -/
def dirBasename (d : Dir) : String := d.getLast?.getD tasksDirName

/-- `path.basename(p, '.md')`: the file name with one trailing `.md`
stripped (Node keeps the extension when the whole name equals it). -/
def keyOfFileName (n : String) : String :=
  if strEndsWith n ".md" && n ≠ ".md" then ⟨dropLast3 n.toList⟩ else n

/-- `fs.writeFile`: overwrite the file at this exact path if present,
otherwise the file appears (at the end of the traversal order). -/
def writeFileOp (fs : FS) (d : Dir) (n content : String) : FS :=
  if fs.any (fun f => f.dir = d && f.name = n) then
    fs.map (fun f => if f.dir = d && f.name = n then { f with content := content } else f)
  else fs ++ [⟨d, n, content⟩]

/-- `fs.rm`: the file at this exact path disappears. -/
def removeFileOp (fs : FS) (d : Dir) (n : String) : FS :=
  fs.filter (fun f => !(f.dir = d && f.name = n))

/-- `findExistingTaskFile` / `searchTaskFileRecursively`: the first file
named `{issueKey}.md` in traversal order, anywhere under the root. -/
def findExistingTaskFile (fs : FS) (issueKey : String) : Option FsFile :=
  fs.find? (fun f => f.name = issueKey ++ ".md")

/-- `getExistingTaskFiles` / `collectTaskFilesRecursively`: every file
whose name ends in `.md` and matches `^[A-Z]+-\d+\.md$`, in traversal
order. -/
def getExistingTaskFiles (fs : FS) : List FsFile :=
  fs.filter (fun f => strEndsWith f.name ".md" && taskFileNamePattern f.name)

/-! ## JS `Map` / object lookups -/

/-- Lookup in a JS `Map` built by repeated `set` (the last `set` for a key
wins), represented as the list of `set` calls in order. -/
def jsGet {α : Type} (l : List (String × α)) (k : String) : Option α :=
  l.foldl (fun acc p => if p.1 = k then some p.2 else acc) none

/-- Lookup by the last matching element (a JS `Map<number, _>` built by
`set` in list order). -/
def lastFind? {α : Type} (p : α → Bool) (l : List α) : Option α :=
  l.foldl (fun acc x => if p x then some x else acc) none

/-- `idToKeyMap[pid]` under JS truthiness: an empty-string key counts as
absent. -/
def lookupKey (m : List (Nat × String)) (pid : Nat) : Option String :=
  match lastFind? (fun p => p.1 = pid) m with
  | some p => if p.2 = "" then none else some p.2
  | none => none

/-! ## The reconciliation engine (`TaskFileManager.ts`) -/

/-- `filterIgnoredIssueTypes` (lines 383–395): drop issues whose type name
is in the ignore list, matched case-insensitively (both sides are
lower-cased by the source). -/
def filterIgnoredIssueTypes (issues : List BacklogIssue) (ignoreIssueTypes : List String) :
    List BacklogIssue :=
  if ignoreIssueTypes.isEmpty then issues
  else
    let ignoredTypesLower := ignoreIssueTypes.map jsToLower
    issues.filter (fun issue => !ignoredTypesLower.contains (jsToLower issue.issueType.name))

/-- The stub parent record fabricated by `buildIssueTreeMap` (lines
646–666) when the parent issue is not in the fetched set but its key is
known from the persisted id→key map: empty description, summary
`"Parent Issue {key}"`, and type/priority/status/created-user copied from
the child. -/
def stubParent (issue : BacklogIssue) (pid : Nat) (parentKey : String) : BacklogIssue where
  id := pid
  projectId := issue.projectId
  issueKey := parentKey
  keyId := 0
  issueType := issue.issueType
  summary := "Parent Issue " ++ parentKey
  description := ""
  priority := issue.priority
  status := issue.status
  category := []
  versions := []
  milestone := []
  parentIssueId := none
  createdUser := issue.createdUser
  created := issue.created

/-- The parent resolution of `buildIssueTreeMap` (lines 636–668): the
parent from the current issue set when present (a JS `Map` lookup, last
insertion wins), else a stub when the id→key map knows the key, else
undefined. -/
def buildParent (issues : List BacklogIssue) (idToKeyMap : List (Nat × String))
    (issue : BacklogIssue) : Option BacklogIssue :=
  match parentId? issue with
  | none => none
  | some pid =>
    match lastFind? (fun i => i.id = pid) issues with
    | some p => some p
    | none =>
      match lookupKey idToKeyMap pid with
      | some parentKey => some (stubParent issue pid parentKey)
      | none => none

/-- `children` of `buildIssueTreeMap` (line 670): all fetched issues whose
raw `parentIssueId` strictly equals this issue's id. -/
def childrenOf (issues : List BacklogIssue) (issue : BacklogIssue) : List BacklogIssue :=
  issues.filter (fun child => child.parentIssueId = some issue.id)

/-- `buildIssueTreeMap` (lines 625–680), as the ordered list of
`treeMap.set` calls. -/
def buildIssueTreeMap (issues : List BacklogIssue) (idToKeyMap : List (Nat × String)) :
    List (String × TreeNode) :=
  issues.map (fun issue =>
    (issue.issueKey,
     { issue := issue
       parent := buildParent issues idToKeyMap issue
       children := childrenOf issues issue }))

/-- The `existingIssueLocations` map of `matchCustomFoldersWithIssues`
(lines 431–437): for each collected task file, its containing directory;
later files in traversal order overwrite earlier ones with the same key. -/
def existingIssueLocations (fs : FS) (key : String) : Option Dir :=
  (getExistingTaskFiles fs).foldl
    (fun acc f => if keyOfFileName f.name = key then some f.dir else acc) none

/-- `determineTargetFolderByRelationship` (lines 500–522). -/
def determineTargetFolderByRelationship (issue : BacklogIssue) (parent : Option BacklogIssue)
    (children : List BacklogIssue) (locations : String → Option Dir) : Dir :=
  match parent with
  | some p =>
    match locations p.issueKey with
    | some parentLocation => parentLocation
    | none => [p.issueKey]
  | none =>
    if children.length > 0 then [issue.issueKey]
    else ["others"]

/-- The child-location probe of `matchCustomFoldersWithIssues` (lines
473–477): the first child, in order, that has a file. -/
def firstChildLocation (children : List BacklogIssue) (locations : String → Option Dir) :
    Option Dir :=
  children.findSome? (fun child => locations child.issueKey)

/-- The per-issue body of the second pass of `matchCustomFoldersWithIssues`
(lines 440–492). -/
def targetForEntry (locations : String → Option Dir) (issueKey : String) (node : TreeNode) :
    Dir :=
  match locations issueKey with
  | some currentLocation =>
    let currentDirName := dirBasename currentLocation
    if currentDirName ≠ "others" && !bareKeyPattern currentDirName then currentLocation
    else if isCustomParentFolder currentDirName then currentLocation
    else determineTargetFolderByRelationship node.issue node.parent node.children locations
  | none =>
    match node.parent with
    | some parent =>
      match locations parent.issueKey with
      | some parentLocation => parentLocation
      | none => determineTargetFolderByRelationship node.issue node.parent node.children locations
    | none =>
      if node.children.length > 0 then
        match firstChildLocation node.children locations with
        | some childLocation => childLocation
        | none => [node.issue.issueKey]
      else ["others"]

/-- `matchCustomFoldersWithIssues` (lines 425–495): the folder assignment
for every tree entry, computed against a single snapshot of the current
file locations. -/
def matchCustomFoldersWithIssues (issueTreeMap : List (String × TreeNode)) (fs : FS) :
    List (String × Dir) :=
  issueTreeMap.map (fun e => (e.1, targetForEntry (existingIssueLocations fs) e.1 e.2))

/-- `getIssueFolderPath` (lines 263–314), evaluated against the live
filesystem (it re-runs the recursive search). -/
def getIssueFolderPath (fs : FS) (issue : BacklogIssue) (allIssues : List BacklogIssue) : Dir :=
  let existing := findExistingTaskFile fs issue.issueKey
  let preserved : Option Dir :=
    match existing with
    | some f =>
      let currentDirName := dirBasename f.dir
      if currentDirName ≠ "others" &&
          (!bareKeyPattern currentDirName || isCustomParentFolder currentDirName) then
        some f.dir
      else none
    | none => none
  match preserved with
  | some d => d
  | none =>
    match parentId? issue with
    | some pid =>
      match allIssues.find? (fun i => i.id = pid) with
      | some parent =>
        match findExistingTaskFile fs parent.issueKey with
        | some pf =>
          if isCustomParentFolder (dirBasename pf.dir) then pf.dir else [parent.issueKey]
        | none => [parent.issueKey]
      | none => ["others"]
    | none =>
      if allIssues.any (fun child => child.parentIssueId = some issue.id) then
        match existing with
        | some f =>
          if isCustomParentFolder (dirBasename f.dir) then f.dir else [issue.issueKey]
        | none => [issue.issueKey]
      else ["others"]

/-! ## The sync pass (`syncIssues`, lines 685–747) with fault injection

Local filesystem faults are modelled by a set of failing operations; a
faulting operation throws where the source would get a rejected promise.
`moveTaskFile` (lines 140–158) catches every error internally; the write
of the recovery branch (line 716) and the write inside `syncIssue` (lines
366–378, rethrown as a new `Error`) are not caught inside the per-issue
loop, so those faults abort the remaining batch.  Directory listings and
`ensureDir` are modelled as infallible (the source swallows listing errors
and `ensureDir` has no observable effect here). -/

/-- A fallible filesystem operation. -/
inductive FsOp where
  | write (d : Dir) (n : String)
  | read (d : Dir) (n : String)
  | remove (d : Dir) (n : String)
deriving DecidableEq, Repr

/-- The set of operations that fail in a run. -/
abbrev Faults := List FsOp

/-- Whether an operation fails. -/
def fails (F : Faults) (op : FsOp) : Bool := F.contains op

/-- The file name an operation touches. -/
def opName : FsOp → String
  | .write _ n => n
  | .read _ n => n
  | .remove _ n => n

/-- `moveTaskFile` (lines 140–158): read the old content, write it to the
new path, delete the old file; every error is caught and only logged, so a
fault mid-way leaves the partial effects in place. -/
def moveTaskFile (F : Faults) (fs : FS) (fromFile : FsFile) (toDir : Dir) (toName : String) :
    FS :=
  if fails F (.read fromFile.dir fromFile.name) then fs
  else if fails F (.write toDir toName) then fs
  else
    let fs1 := writeFileOp fs toDir toName fromFile.content
    if fails F (.remove fromFile.dir fromFile.name) then fs1
    else removeFileOp fs1 fromFile.dir fromFile.name

/-- Branch counters for one sync pass: recoveries (missing file written),
moves (file in the wrong folder), in-place content updates. -/
structure SyncStats where
  recovered : Nat
  moved : Nat
  updated : Nat
deriving DecidableEq, Repr

/-- The running state of the per-issue loop of `syncIssues`: the
filesystem, the branch counters, and the pending exception (set once an
uncaught fault aborts the loop). -/
structure SyncOutcome where
  fs : FS
  stats : SyncStats
  err : Option String
deriving DecidableEq, Repr

/-- One iteration of the per-issue loop of `syncIssues` (lines 705–726):
locate the file (live), look up the assigned folder (defaulting to
`others`), then recover / move / update in place.  The in-place update
goes through `syncIssue` → `issueToTaskFile` → `getIssueFolderPath`, which
recomputes the folder from the live filesystem. -/
def syncStep (F : Faults) (filteredIssues : List BacklogIssue)
    (issueToFolderMap : List (String × Dir)) (acc : SyncOutcome) (issue : BacklogIssue) :
    SyncOutcome :=
  if acc.err.isSome then acc
  else
    let existingPath := findExistingTaskFile acc.fs issue.issueKey
    let targetFolder := (jsGet issueToFolderMap issue.issueKey).getD ["others"]
    let targetName := issue.issueKey ++ ".md"
    match existingPath with
    | none =>
      if fails F (.write targetFolder targetName) then
        { acc with err := some issue.issueKey }
      else
        { acc with
          fs := writeFileOp acc.fs targetFolder targetName
            (generateMarkdownContent issue.summary issue.description)
          stats := { acc.stats with recovered := acc.stats.recovered + 1 } }
    | some f =>
      if f.dir ≠ targetFolder then
        { acc with
          fs := moveTaskFile F acc.fs f targetFolder targetName
          stats := { acc.stats with moved := acc.stats.moved + 1 } }
      else
        let folder := getIssueFolderPath acc.fs issue filteredIssues
        if fails F (.write folder targetName) then
          { acc with err := some issue.issueKey }
        else
          { acc with
            fs := writeFileOp acc.fs folder targetName
              (generateMarkdownContent issue.summary issue.description)
            stats := { acc.stats with updated := acc.stats.updated + 1 } }

/-- `syncIssues` (lines 685–747): filter ignored types, build the tree
from the persisted id→key map, compute the folder assignment once, then
run the per-issue loop. -/
def syncIssuesF (F : Faults) (issues : List BacklogIssue) (ignoreIssueTypes : List String)
    (idToKeyMap : List (Nat × String)) (fs : FS) : SyncOutcome :=
  let filteredIssues := filterIgnoredIssueTypes issues ignoreIssueTypes
  let issueTreeMap := buildIssueTreeMap filteredIssues idToKeyMap
  let issueToFolderMap := matchCustomFoldersWithIssues issueTreeMap fs
  filteredIssues.foldl (syncStep F filteredIssues issueToFolderMap)
    { fs := fs, stats := ⟨0, 0, 0⟩, err := none }

/-! ## Orphan cleanup (`cleanupRemovedIssues`, `removeTaskFile`) and the
`sync-issues` tool handler -/

/-- `removeTaskFile` (lines 797–806): delete the first file named
`{issueKey}.md`, if any. -/
def removeTaskFileByKey (fs : FS) (issueKey : String) : FS :=
  match findExistingTaskFile fs issueKey with
  | some f => removeFileOp fs f.dir f.name
  | none => fs

/-- `cleanupRemovedIssues` (lines 811–827): collect all task files, take
the keys not in `currentIssueKeys`, and remove each. -/
def cleanupRemovedIssues (currentIssueKeys : List String) (fs : FS) : FS :=
  let existingIssueKeys := (getExistingTaskFiles fs).map (fun f => keyOfFileName f.name)
  let removedIssueKeys := existingIssueKeys.filter (fun k => !currentIssueKeys.contains k)
  removedIssueKeys.foldl removeTaskFileByKey fs

/-- The filesystem effect of the `sync-issues` tool handler
(`server.ts` lines 70–96): run `syncIssues` on the fetched issues, then —
only when no persisted timestamp existed (first-time full sync) and the
sync did not throw — run `cleanupRemovedIssues` with the keys of the
*unfiltered* fetched issues. -/
def syncIssuesToolRun (lastSyncTime : Option String) (fetchedIssues : List BacklogIssue)
    (ignoreIssueTypes : List String) (idToKeyMap : List (Nat × String)) (fs : FS) : FS :=
  let out := syncIssuesF [] fetchedIssues ignoreIssueTypes idToKeyMap fs
  if out.err.isNone && lastSyncTime.isNone then
    cleanupRemovedIssues (fetchedIssues.map (·.issueKey)) out.fs
  else out.fs

/-! ## The per-key decision of the `update-issues` tool handler
(`server.ts` lines 294–336) -/

/-- The change payload sent to `client.updateIssue` (a field is present
exactly when the handler assigned it). -/
structure IssueChanges where
  summary : Option String
  description : Option String
deriving DecidableEq, Repr

/-- The message pushed when an empty local description would overwrite a
non-empty remote one. -/
def descSkipMsg : String := "Description update skipped (would remove existing content)"

/-- The change computation of the `update-issues` handler for one key:
the payload and the `changesList` messages.  `localDesc` and `remoteDesc`
are the `|| ''`-normalised descriptions. -/
def computeIssueChanges (localTitle localDesc remoteSummary remoteDesc : String) :
    IssueChanges × List String :=
  let c0 : IssueChanges := ⟨none, none⟩
  let (c1, l1) :=
    if localTitle ≠ "" && localTitle ≠ remoteSummary then
      ({ c0 with summary := some localTitle }, ["Title updated"])
    else (c0, [])
  if localDesc ≠ remoteDesc then
    if localDesc = "" && remoteDesc ≠ "" then (c1, l1 ++ [descSkipMsg])
    else
      let c2 := { c1 with description := some localDesc }
      let l2 :=
        if localDesc ≠ "" && remoteDesc ≠ "" then l1 ++ ["Description updated"]
        else if localDesc ≠ "" && remoteDesc = "" then l1 ++ ["Description added"]
        else l1
      (c2, l2)
  else (c1, l1)

/-- `Object.keys(changes).length === 0`. -/
def changesEmpty (c : IssueChanges) : Bool := c.summary = none && c.description = none

/-- The per-key result line pushed by the handler: the no-change skip line
when the payload is empty (no `updateIssue` call is made), otherwise the
success line listing the changes. -/
def updateResultLine (issueKey localTitle localDesc remoteSummary remoteDesc : String) :
    String :=
  let r := computeIssueChanges localTitle localDesc remoteSummary remoteDesc
  if changesEmpty r.1 then "⏭️  " ++ issueKey ++ ": No changes detected"
  else "✅ " ++ issueKey ++ ": " ++ String.intercalate ", " r.2

/-! ## Lemmas about the JS string primitives -/

theorem toList_mk (l : List Char) : (String.mk l).toList = l := rfl

theorem toList_append (s t : String) : (s ++ t).toList = s.toList ++ t.toList := by
  simp [String.toList]

theorem jsSplitL_ne_nil (sep : Char) (l : List Char) : jsSplitL sep l ≠ [] := by
  induction l with
  | nil => simp [jsSplitL]
  | cons c cs ih =>
    simp only [jsSplitL]
    split
    · simp
    · cases h : jsSplitL sep cs with
      | nil => simp
      | cons x xs => simp

theorem jsSplitL_sep_cons (sep : Char) (b : List Char) :
    jsSplitL sep (sep :: b) = [] :: jsSplitL sep b := by
  simp [jsSplitL]

theorem jsSplitL_append_sep (sep : Char) (a b : List Char) (ha : sep ∉ a) :
    jsSplitL sep (a ++ sep :: b) = a :: jsSplitL sep b := by
  induction a with
  | nil => simp [jsSplitL]
  | cons c cs ih =>
    have hc : ¬(c = sep) := fun h => ha (h ▸ List.mem_cons_self c cs)
    have ih' := ih (fun h => ha (List.mem_cons_of_mem c h))
    have ih2 : jsSplitL sep (cs.append (sep :: b)) = cs :: jsSplitL sep b := ih'
    simp only [List.cons_append, jsSplitL, if_neg hc, ih2]

theorem jsJoinL_jsSplitL (sep : Char) (l : List Char) :
    jsJoinL sep (jsSplitL sep l) = l := by
  induction l with
  | nil => rfl
  | cons c cs ih =>
    by_cases hc : c = sep
    · subst hc
      rw [jsSplitL_sep_cons]
      cases h : jsSplitL c cs with
      | nil => exact absurd h (jsSplitL_ne_nil c cs)
      | cons x xs =>
        rw [h] at ih
        show jsJoinL c ([] :: x :: xs) = c :: cs
        show [] ++ c :: jsJoinL c (x :: xs) = c :: cs
        simpa using ih
    · simp only [jsSplitL, if_neg hc]
      cases h : jsSplitL sep cs with
      | nil => exact absurd h (jsSplitL_ne_nil sep cs)
      | cons x xs =>
        rw [h] at ih
        cases xs with
        | nil => show c :: x = c :: cs; simpa using ih
        | cons y ys =>
          show (c :: x) ++ sep :: jsJoinL sep (y :: ys) = c :: cs
          simpa using ih

theorem jsTrimL_ws_cons (c : Char) (hx : isWsChar c = true) (l : List Char) :
    jsTrimL (c :: l) = jsTrimL l := by
  simp [jsTrimL, List.dropWhile, hx]

/-! ## C7: write/read round-trip of a task file -/

theorem jsSplitL_generate (title description : String) (ht : '\n' ∉ title.toList) :
    jsSplitL '\n' (generateMarkdownContent title description).toList =
      ('#' :: ' ' :: title.toList) ::
        [] :: jsSplitL '\n' (if jsTrim description ≠ "" then description else "").toList := by
  unfold generateMarkdownContent
  set d := if jsTrim description ≠ "" then description else "" with hd
  have ha : '\n' ∉ ('#' :: ' ' :: title.toList) := by
    intro h
    simp only [List.mem_cons] at h
    rcases h with h | h | h
    · exact absurd h (by decide)
    · exact absurd h (by decide)
    · exact ht h
  have h1 : ("# " ++ title ++ "\n\n" ++ d).toList =
      ('#' :: ' ' :: title.toList) ++ '\n' :: ('\n' :: d.toList) := by
    simp [toList_append]
  rw [h1, jsSplitL_append_sep '\n' _ _ ha, jsSplitL_sep_cons]

/-- C7 (amended): generating a task file's markdown from `(title,
description)` and parsing it back yields the trimmed title and trimmed
description, *provided the title contains no newline* (a title with an
embedded newline is truncated at the newline by the parse, see the
counterexample). -/
theorem parse_generate_roundTrip (title description : String) (ht : '\n' ∉ title.toList) :
    parseTaskContent (generateMarkdownContent title description) =
      (jsTrim title, jsTrim description) := by
  unfold parseTaskContent
  rw [jsSplitL_generate title description ht]
  set d := if jsTrim description ≠ "" then description else "" with hd
  have hhash : (['#', ' '] : List Char).isPrefixOf ('#' :: ' ' :: title.toList) = true := by
    simp [List.isPrefixOf]
  have htitle : replaceFirstL ['#', ' '] [] ('#' :: ' ' :: title.toList) = title.toList := by
    simp [replaceFirstL, hhash]
  have hdesc : jsTrimL (jsJoinL '\n' ([] :: jsSplitL '\n' d.toList)) = jsTrimL d.toList := by
    cases h : jsSplitL '\n' d.toList with
    | nil => exact absurd h (jsSplitL_ne_nil '\n' d.toList)
    | cons x xs =>
      have hj : jsJoinL '\n' ([] :: x :: xs) = '\n' :: jsJoinL '\n' (x :: xs) := rfl
      rw [hj, jsTrimL_ws_cons '\n' (by simp [isWsChar]), ← h, jsJoinL_jsSplitL]
  simp only [jsFind, jsFindIndex, hhash, if_true, List.drop_succ_cons, List.drop_zero,
    htitle, hdesc]
  have hfinal : jsTrimL d.toList = (jsTrim description).toList := by
    by_cases hne : jsTrim description ≠ ""
    · rw [hd, if_pos hne]
      rfl
    · push_neg at hne
      rw [hd, if_neg (by simp [hne]), hne]
      rfl
  rw [hfinal]
  rfl

/-- C7 counterexample: for a title containing a newline the round trip
does not return the trimmed title — the parsed title stops at the
newline. -/
theorem parse_generate_newline_cx :
    parseTaskContent (generateMarkdownContent "a\nb" "") = ("a", "b") ∧
      jsTrim "a\nb" = "a\nb" ∧ ("a" : String) ≠ "a\nb" := by
  refine ⟨by decide, by decide, by decide⟩

/-- Witness for the round-trip theorem at a concrete title/description. -/
theorem parse_generate_roundTrip_witness :
    parseTaskContent (generateMarkdownContent "Fix login" "  steps\nmore  ") =
      ("Fix login", "steps\nmore") :=
  (parse_generate_roundTrip "Fix login" "  steps\nmore  " (by decide)).trans (by decide)

/-! ## C2: the empty-local-description guard of `update-issues` -/

/-- C2 (amended): when the local task file parses to an empty description
and the remote description is non-empty, no description update is sent
(the payload's `description` field stays absent, so the remote description
is untouched); the key's result line reports the description change as
skipped when a title change is also applied, and otherwise reads
`"No changes detected"` (the skip message is computed but discarded). -/
theorem updateIssues_emptyDesc_guard (issueKey content remoteSummary remoteDesc : String)
    (hlocal : (parseTaskContent content).2 = "") (hremote : remoteDesc ≠ "") :
    (computeIssueChanges (parseTaskContent content).1 (parseTaskContent content).2
        remoteSummary remoteDesc).1.description = none ∧
    ((parseTaskContent content).1 ≠ "" ∧ (parseTaskContent content).1 ≠ remoteSummary →
      updateResultLine issueKey (parseTaskContent content).1 (parseTaskContent content).2
          remoteSummary remoteDesc =
        "✅ " ++ issueKey ++ ": " ++ ("Title updated, " ++ descSkipMsg)) ∧
    (¬((parseTaskContent content).1 ≠ "" ∧ (parseTaskContent content).1 ≠ remoteSummary) →
      updateResultLine issueKey (parseTaskContent content).1 (parseTaskContent content).2
          remoteSummary remoteDesc =
        "⏭️  " ++ issueKey ++ ": No changes detected") := by
  rw [hlocal]
  set lt := (parseTaskContent content).1 with hlt
  have hd : ¬(("" : String) = remoteDesc) := fun h => hremote h.symm
  by_cases htc : lt ≠ "" ∧ lt ≠ remoteSummary
  · refine ⟨?_, fun _ => ?_, fun hn => absurd htc hn⟩
    · simp [computeIssueChanges, htc.1, htc.2, hd, hremote]
    · simp only [updateResultLine, computeIssueChanges, changesEmpty]
      simp [htc.1, htc.2, hd, hremote]
      congr 1
  · have hor : lt = "" ∨ lt = remoteSummary := by
      by_contra hcon
      push_neg at hcon
      exact htc ⟨hcon.1, hcon.2⟩
    refine ⟨?_, fun hc => absurd hc htc, fun _ => ?_⟩
    · rcases hor with h | h <;>
        simp [computeIssueChanges, h, hd, hremote]
    · rcases hor with h | h <;>
        simp [updateResultLine, computeIssueChanges, changesEmpty, h, hd, hremote]

/-- C2 counterexample: with the title unchanged, the suppressed
description change is *not* reported as skipped — the key's result line is
the generic `"No changes detected"` line (the word `skipped` appears
nowhere in it), even though the local file parses to an empty description
while the remote one is non-empty (the suppression itself does happen:
the payload is empty and no update call is made). -/
theorem updateIssues_skip_report_cx :
    parseTaskContent "# T\n\n" = ("T", "") ∧
    (computeIssueChanges "T" "" "T" "keep").1 = ⟨none, none⟩ ∧
    updateResultLine "PROJ-1" "T" "" "T" "keep" = "⏭️  PROJ-1: No changes detected" ∧
    containsSub (updateResultLine "PROJ-1" "T" "" "T" "keep") "skipped" = false := by
  refine ⟨by decide, by decide, by decide, by decide⟩

/-- Witness for the empty-description guard at a concrete input (title
changed, so the skip is visible in the result line). -/
theorem updateIssues_emptyDesc_guard_witness :
    (parseTaskContent "# New\n\n").2 = "" ∧ ("keep" : String) ≠ "" ∧
    (computeIssueChanges (parseTaskContent "# New\n\n").1 (parseTaskContent "# New\n\n").2
        "Old" "keep").1.description = none ∧
    updateResultLine "K-1" (parseTaskContent "# New\n\n").1 (parseTaskContent "# New\n\n").2
        "Old" "keep" =
      "✅ K-1: Title updated, " ++ descSkipMsg := by
  have h := updateIssues_emptyDesc_guard "K-1" "# New\n\n" "Old" "keep" (by decide) (by decide)
  exact ⟨by decide, by decide, h.1, (h.2.1 (by decide)).trans (by decide)⟩

/-! ## C8: stub parents in `buildIssueTreeMap` -/

theorem foldl_lastFind_skip {α : Type} (p : α → Bool) :
    ∀ (l : List α) (acc : Option α), (∀ y ∈ l, p y = false) →
      l.foldl (fun acc x => if p x then some x else acc) acc = acc
  | [], _, _ => rfl
  | a :: as, acc, h => by
    rw [List.foldl_cons, if_neg (by simp [h a (List.mem_cons_self a as)])]
    exact foldl_lastFind_skip p as acc (fun y hy => h y (List.mem_cons_of_mem a hy))

theorem lastFind?_eq_none {α : Type} (p : α → Bool) (l : List α)
    (h : ∀ y ∈ l, p y = false) : lastFind? p l = none :=
  foldl_lastFind_skip p l none h

/-- C8 (confirmed): for an issue whose parent id resolves to no issue of
the current filtered set, `buildIssueTreeMap` gives it (a) a stub parent
carrying the id and the key from `idToKeyMap`, an empty description, and
type/priority/status/created-user copied from the child, when the map
knows the key; (b) an undefined parent — so the folder logic, which only
consults `node.parent`, treats it as parentless — when it does not. -/
theorem buildIssueTreeMap_missing_parent (issues : List BacklogIssue)
    (idToKeyMap : List (Nat × String)) (x : BacklogIssue) (pid : Nat)
    (hx : x ∈ issues) (hpid : parentId? x = some pid)
    (habsent : ∀ y ∈ issues, y.id ≠ pid) :
    (∀ k, lookupKey idToKeyMap pid = some k →
      (x.issueKey, ⟨x, some (stubParent x pid k), childrenOf issues x⟩) ∈
        buildIssueTreeMap issues idToKeyMap ∧
      (stubParent x pid k).id = pid ∧ (stubParent x pid k).issueKey = k ∧
      (stubParent x pid k).description = "" ∧
      (stubParent x pid k).issueType = x.issueType ∧
      (stubParent x pid k).priority = x.priority ∧
      (stubParent x pid k).status = x.status ∧
      (stubParent x pid k).createdUser = x.createdUser) ∧
    (lookupKey idToKeyMap pid = none →
      (x.issueKey, ⟨x, none, childrenOf issues x⟩) ∈ buildIssueTreeMap issues idToKeyMap) := by
  have hfind : lastFind? (fun i => i.id = pid) issues = none :=
    lastFind?_eq_none _ _ (fun y hy => by simp [habsent y hy])
  constructor
  · intro k hk
    have hparent : buildParent issues idToKeyMap x = some (stubParent x pid k) := by
      simp only [buildParent, hpid, hfind, hk]
    refine ⟨?_, rfl, rfl, rfl, rfl, rfl, rfl, rfl⟩
    have := List.mem_map_of_mem
      (fun issue => (issue.issueKey,
        (⟨issue, buildParent issues idToKeyMap issue, childrenOf issues issue⟩ : TreeNode))) hx
    rw [buildIssueTreeMap]
    simpa [hparent] using this
  · intro hk
    have hparent : buildParent issues idToKeyMap x = none := by
      simp only [buildParent, hpid, hfind, hk]
    have := List.mem_map_of_mem
      (fun issue => (issue.issueKey,
        (⟨issue, buildParent issues idToKeyMap issue, childrenOf issues issue⟩ : TreeNode))) hx
    rw [buildIssueTreeMap]
    simpa [hparent] using this

/-- Witness for the stub-parent theorem: one issue whose parent id `7` is
absent from the fetched set but present in the persisted id→key map. -/
theorem buildIssueTreeMap_missing_parent_witness :
    let x : BacklogIssue :=
      ⟨2, 1, "B-2", 2, ⟨"Task"⟩, "t", "d", ⟨"Normal"⟩, ⟨"Open"⟩, [], [], [],
        some 7, ⟨"u"⟩, "2024"⟩
    (x.issueKey, ⟨x, some (stubParent x 7 "A-1"), childrenOf [x] x⟩) ∈
      buildIssueTreeMap [x] [(7, "A-1")] ∧
    (stubParent x 7 "A-1").description = "" ∧ (stubParent x 7 "A-1").issueKey = "A-1" := by
  intro x
  have h := buildIssueTreeMap_missing_parent [x] [(7, "A-1")] x 7
    (by decide) (by decide) (by decide)
  have h1 := (h.1 "A-1" (by decide))
  exact ⟨h1.1, h1.2.2.2.1, h1.2.2.1⟩

/-! ## C9: folder assignment for issues with a parent -/

theorem bare_not_custom (s : String) (h : bareKeyPattern s = true) :
    isCustomParentFolder s = false := by
  have h2 : keyNumPrefix s.toList = some [] := by
    simpa [bareKeyPattern] using h
  rw [isCustomParentFolder, h2]

theorem foldl_jsGet_skip {β : Type} (k : String) :
    ∀ (l : List (String × β)) (acc : Option β), (∀ e ∈ l, e.1 ≠ k) →
      l.foldl (fun acc p => if p.1 = k then some p.2 else acc) acc = acc
  | [], _, _ => rfl
  | e :: es, acc, h => by
    rw [List.foldl_cons, if_neg (h e (List.mem_cons_self e es))]
    exact foldl_jsGet_skip k es acc (fun y hy => h y (List.mem_cons_of_mem e hy))

theorem jsGet_map_nodup {α β : Type} (g : String → α → β) :
    ∀ (l : List (String × α)) (k : String) (v : α),
      (l.map Prod.fst).Nodup → (k, v) ∈ l →
      jsGet (l.map (fun e => (e.1, g e.1 e.2))) k = some (g k v)
  | [], _, _, _, hmem => absurd hmem (List.not_mem_nil _)
  | e :: es, k, v, hnodup, hmem => by
    have hnd2 : e.1 ∉ es.map Prod.fst ∧ (es.map Prod.fst).Nodup := by
      rw [List.map_cons, List.nodup_cons] at hnodup
      exact hnodup
    by_cases hek : e.1 = k
    · have hev : e = (k, v) := by
        rcases List.mem_cons.mp hmem with h | h
        · exact h.symm
        · exact absurd (hek ▸ List.mem_map_of_mem Prod.fst h) hnd2.1
      unfold jsGet
      rw [List.map_cons, List.foldl_cons]
      rw [hev]
      simp only [if_pos rfl]
      exact foldl_jsGet_skip k _ _ (by
        intro y hy
        rcases List.mem_map.mp hy with ⟨e2, he2, rfl⟩
        intro hkk
        exact (hek ▸ hnd2.1) (hkk ▸ List.mem_map_of_mem Prod.fst he2))
    · have hmem2 : (k, v) ∈ es := by
        rcases List.mem_cons.mp hmem with h | h
        · exact absurd (congrArg Prod.fst h.symm) hek
        · exact h
      have := jsGet_map_nodup g es k v hnd2.2 hmem2
      unfold jsGet at this ⊢
      rw [List.map_cons, List.foldl_cons, if_neg hek]
      exact this

/-- C9 (amended): for a tree entry with a resolved or stub parent and no
preserved custom location of its own, the assigned folder is the directory
containing the parent's current file when one exists, and otherwise the
plain `{parentKey}` directory under the tasks root — no `{parentKey}-*`
directory search happens, and the catch-all `others/` is never the
fallback in this case. -/
theorem assignFolder_with_parent (treeMap : List (String × TreeNode)) (fs : FS)
    (k : String) (node : TreeNode) (p : BacklogIssue)
    (hmem : (k, node) ∈ treeMap) (hnodup : (treeMap.map Prod.fst).Nodup)
    (hp : node.parent = some p)
    (hnc : existingIssueLocations fs k = none ∨
      ∃ d, existingIssueLocations fs k = some d ∧
        (dirBasename d = "others" ∨ bareKeyPattern (dirBasename d) = true)) :
    jsGet (matchCustomFoldersWithIssues treeMap fs) k =
      some ((existingIssueLocations fs p.issueKey).getD [p.issueKey]) := by
  have hget : jsGet (matchCustomFoldersWithIssues treeMap fs) k =
      some (targetForEntry (existingIssueLocations fs) k node) :=
    jsGet_map_nodup (targetForEntry (existingIssueLocations fs)) treeMap k node hnodup hmem
  rw [hget]
  congr 1
  have hrel : determineTargetFolderByRelationship node.issue (some p) node.children
      (existingIssueLocations fs) = (existingIssueLocations fs p.issueKey).getD [p.issueKey] := by
    cases hpl : existingIssueLocations fs p.issueKey <;>
      simp [determineTargetFolderByRelationship, hpl]
  rcases hnc with hnone | ⟨d, hd, hdn⟩
  · simp only [targetForEntry, hnone, hp]
    cases hpl : existingIssueLocations fs p.issueKey with
    | none =>
      rw [hpl] at hrel
      simpa using hrel
    | some pl => simp [hpl]
  · rcases hdn with hoth | hbare
    · have hcust : isCustomParentFolder (dirBasename d) = false := by
        rw [hoth]; decide
      simp only [targetForEntry, hd, hoth, hcust, hp]
      simpa using hrel
    · have hcust := bare_not_custom _ hbare
      simp only [targetForEntry, hd, hbare, hcust, hp]
      simpa using hrel

/-- C9 counterexample: an issue with a stub parent `A-1`, no file of its
own, no parent file, and no directories at all: the claim's fallback chain
(`{parentKey}-*` directory, else `others/`) predicts `others/`, but the
code assigns the plain `A-1` directory under the tasks root. -/
theorem assignFolder_with_parent_cx :
    let x : BacklogIssue :=
      ⟨2, 1, "B-2", 2, ⟨"Task"⟩, "t", "d", ⟨"Normal"⟩, ⟨"Open"⟩, [], [], [],
        some 7, ⟨"u"⟩, "2024"⟩
    jsGet (matchCustomFoldersWithIssues (buildIssueTreeMap [x] [(7, "A-1")]) []) "B-2" =
      some ["A-1"] ∧ (["A-1"] : Dir) ≠ ["others"] := by
  refine ⟨by decide, by decide⟩

/-- Witness for the parent-folder assignment theorem: the parent's file
exists in a custom sprint folder, so the child is assigned that folder. -/
theorem assignFolder_with_parent_witness :
    let x : BacklogIssue :=
      ⟨2, 1, "B-2", 2, ⟨"Task"⟩, "t", "d", ⟨"Normal"⟩, ⟨"Open"⟩, [], [], [],
        some 7, ⟨"u"⟩, "2024"⟩
    let p : BacklogIssue :=
      ⟨7, 1, "A-1", 7, ⟨"Task"⟩, "t", "d", ⟨"Normal"⟩, ⟨"Open"⟩, [], [], [],
        none, ⟨"u"⟩, "2024"⟩
    let fs : FS := [⟨["sprint-3"], "A-1.md", "c"⟩]
    jsGet (matchCustomFoldersWithIssues
        [("B-2", ⟨x, some p, []⟩)] fs) "B-2" = some ["sprint-3"] := by
  intro x p fs
  have h := assignFolder_with_parent [("B-2", ⟨x, some p, []⟩)] fs "B-2" ⟨x, some p, []⟩ p
    (by decide) (by decide) (by decide) (Or.inl (by decide))
  exact h.trans (by decide)

/-! ## Structure of names matching `^[A-Z]+-\d+\.md$` -/

theorem munch1_decomp (p : Char → Bool) (l r : List Char) (h : munch1 p l = some r) :
    ∃ u, u ≠ [] ∧ (∀ c ∈ u, p c = true) ∧ l = u ++ r := by
  cases l with
  | nil => exact absurd h (by simp [munch1])
  | cons c cs =>
    simp only [munch1] at h
    by_cases hp : p c
    · rw [if_pos hp] at h
      refine ⟨c :: cs.takeWhile p, by simp, ?_, ?_⟩
      · intro x hx
        rcases List.mem_cons.mp hx with rfl | hx
        · exact hp
        · exact List.mem_takeWhile_imp hx
      · rw [Option.some_inj] at h
        rw [← h]
        simp [List.takeWhile_append_dropWhile]
    · rw [if_neg hp] at h
      exact absurd h (by simp)

theorem keyNumPrefix_decomp (l r : List Char) (h : keyNumPrefix l = some r) :
    ∃ u d, u ≠ [] ∧ d ≠ [] ∧ (∀ c ∈ u, isUpperAZ c = true) ∧
      l = u ++ '-' :: (d ++ r) := by
  unfold keyNumPrefix at h
  split at h
  next rest heq =>
    rcases munch1_decomp _ _ _ heq with ⟨u, hu, hup, hl⟩
    rcases munch1_decomp _ _ _ h with ⟨d, hd, _, hrest⟩
    exact ⟨u, d, hu, hd, hup, by rw [hl, hrest]⟩
  next => exact absurd h (by simp)

theorem taskFileName_decomp (n : String) (h : taskFileNamePattern n = true) :
    ∃ a : List Char, a ≠ [] ∧ isUpperAZ a.head! = true ∧
      n.toList = a ++ ['.', 'm', 'd'] := by
  have h2 : keyNumPrefix n.toList = some ['.', 'm', 'd'] := by
    simpa [taskFileNamePattern] using h
  rcases keyNumPrefix_decomp _ _ h2 with ⟨u, d, hu, _, hup, hl⟩
  refine ⟨u ++ '-' :: d, by simp, ?_, by simpa using hl⟩
  cases u with
  | nil => exact absurd rfl hu
  | cons c cs => exact hup c (List.mem_cons_self c cs)

theorem dropLast3_append (a : List Char) (x y z : Char) :
    dropLast3 (a ++ [x, y, z]) = a := by
  unfold dropLast3
  rw [List.reverse_append]
  simp

theorem pattern_keyOf (n : String) (h : taskFileNamePattern n = true) :
    (keyOfFileName n) ++ ".md" = n ∧ strEndsWith n ".md" = true := by
  rcases taskFileName_decomp n h with ⟨a, hne, _, hl⟩
  have hsuf : strEndsWith n ".md" = true := by
    rw [strEndsWith, List.isSuffixOf_iff_suffix]
    exact ⟨a, by rw [hl]; rfl⟩
  have hnmd : n ≠ ".md" := by
    intro hcon
    have : n.toList = ['.', 'm', 'd'] := by rw [hcon]; rfl
    rw [hl] at this
    have hlen := congrArg List.length this
    simp at hlen
    exact hne hlen
  have hkey : keyOfFileName n = ⟨a⟩ := by
    rw [keyOfFileName, if_pos (by simp [hsuf, hnmd])]
    have : dropLast3 n.toList = a := by rw [hl]; exact dropLast3_append a '.' 'm' 'd'
    rw [this]
  refine ⟨?_, hsuf⟩
  rw [hkey]
  apply String.ext
  show a ++ ('.' :: 'm' :: 'd' :: []) = n.data
  rw [show n.data = n.toList from rfl, hl]

theorem mdAppend_inj (k1 k2 : String) (h : k1 ++ ".md" = k2 ++ ".md") : k1 = k2 := by
  apply String.ext
  have := congrArg String.data h
  rw [String.data_append, String.data_append] at this
  exact List.append_cancel_right this

theorem pattern_keyOf_append (k : String) (h : taskFileNamePattern (k ++ ".md") = true) :
    keyOfFileName (k ++ ".md") = k :=
  mdAppend_inj _ _ (pattern_keyOf (k ++ ".md") h).1

/-! ## Frame lemmas for the filesystem operations -/

/-- The files of `fs` carrying a given name. -/
def filesNamed (fs : FS) (N : String) : FS := fs.filter (fun f => f.name = N)

/-- There is a file named `N`. -/
abbrev hasFileNamed (fs : FS) (N : String) : Prop := ∃ f ∈ fs, f.name = N

/-- The number of files of `fs` carrying a given name. -/
def countNamed (fs : FS) (N : String) : Nat := fs.countP (fun f => f.name = N)

theorem filter_name_map_write (t : FS) (q : FsFile → Bool) (c N : String)
    (hq : ∀ f, q f = true → ¬(f.name = N)) :
    (t.map (fun f => if q f then { f with content := c } else f)).filter
      (fun f => f.name = N) = t.filter (fun f => f.name = N) := by
  induction t with
  | nil => rfl
  | cons f t ih =>
    rw [List.map_cons, List.filter_cons, List.filter_cons]
    by_cases hc : q f = true
    · have h2 := hq f hc
      rw [if_pos hc]
      have h1 : ¬(({ f with content := c } : FsFile).name = N) := h2
      rw [if_neg (by simpa using h1), if_neg (by simpa using h2)]
      exact ih
    · rw [if_neg hc]
      by_cases hf : f.name = N
      · rw [if_pos (by simpa using hf), if_pos (by simpa using hf), ih]
      · rw [if_neg (by simpa using hf), if_neg (by simpa using hf)]
        exact ih

theorem filesNamed_writeFileOp_ne (fs : FS) (d : Dir) (n c N : String) (h : N ≠ n) :
    filesNamed (writeFileOp fs d n c) N = filesNamed fs N := by
  unfold filesNamed writeFileOp
  split
  · refine filter_name_map_write fs _ c N ?_
    intro f hf
    have hc : f.dir = d ∧ f.name = n := by simpa using hf
    rw [hc.2]
    exact fun hh => h hh.symm
  · rw [List.filter_append]
    have h2 : List.filter (fun f => f.name = N) [(⟨d, n, c⟩ : FsFile)] = [] := by
      simp only [List.filter_cons, List.filter_nil]
      rw [if_neg (by simpa using fun hh : n = N => h hh.symm)]
    rw [h2, List.append_nil]

theorem filesNamed_removeFileOp_ne (fs : FS) (d : Dir) (n N : String) (h : N ≠ n) :
    filesNamed (removeFileOp fs d n) N = filesNamed fs N := by
  unfold filesNamed removeFileOp
  rw [List.filter_filter]
  apply List.filter_congr
  intro f _
  by_cases hfn : f.name = N
  · have hnn : ¬(f.name = n) := by rw [hfn]; exact h
    rw [decide_eq_false hnn, Bool.and_false, Bool.not_false, Bool.and_true]
  · rw [decide_eq_false hfn, Bool.false_and]

theorem hasFileNamed_iff_filesNamed (fs : FS) (N : String) :
    hasFileNamed fs N ↔ filesNamed fs N ≠ [] := by
  unfold hasFileNamed filesNamed
  rw [Ne, List.filter_eq_nil_iff]
  constructor
  · rintro ⟨f, hf, hn⟩ hall
    exact hall f hf (by simpa using hn)
  · intro h
    by_contra hno
    push_neg at hno
    exact h (fun f hf hn => hno f hf (by simpa using hn))

theorem hasFileNamed_writeFileOp_self (fs : FS) (d : Dir) (n c : String) :
    hasFileNamed (writeFileOp fs d n c) n := by
  unfold writeFileOp
  split
  next hex =>
    rcases List.any_eq_true.mp hex with ⟨f, hf, hcond⟩
    have hc2 : f.dir = d ∧ f.name = n := by simpa using hcond
    refine ⟨_, List.mem_map_of_mem _ hf, ?_⟩
    show ((fun f => if f.dir = d && f.name = n then { f with content := c } else f) f).name = n
    simp only [if_pos hcond]
    exact hc2.2
  next => exact ⟨⟨d, n, c⟩, by simp, rfl⟩

theorem hasFileNamed_writeFileOp_mono (fs : FS) (d : Dir) (n c N : String)
    (h : hasFileNamed fs N) : hasFileNamed (writeFileOp fs d n c) N := by
  by_cases hN : N = n
  · exact hN ▸ hasFileNamed_writeFileOp_self fs d n c
  · rw [hasFileNamed_iff_filesNamed] at h ⊢
    rw [filesNamed_writeFileOp_ne fs d n c N hN]
    exact h

theorem countNamed_removeFileOp_ne (fs : FS) (d : Dir) (n N : String) (h : N ≠ n) :
    countNamed (removeFileOp fs d n) N = countNamed fs N := by
  have hfil := filesNamed_removeFileOp_ne fs d n N h
  unfold filesNamed at hfil
  unfold countNamed
  rw [List.countP_eq_length_filter, List.countP_eq_length_filter, hfil]

/-! ## Lemmas about one iteration of the sync loop -/

/-- There is a file at this exact path. -/
abbrev hasFileAt (fs : FS) (d : Dir) (n : String) : Prop := ∃ f ∈ fs, f.dir = d ∧ f.name = n

theorem find_name (fs : FS) (k : String) (f : FsFile)
    (h : findExistingTaskFile fs k = some f) : f ∈ fs ∧ f.name = k ++ ".md" :=
  ⟨List.mem_of_find?_eq_some h, by simpa using List.find?_some h⟩

theorem find_of_hasFileNamed (fs : FS) (k : String) (h : hasFileNamed fs (k ++ ".md")) :
    ∃ f, findExistingTaskFile fs k = some f := by
  cases hf : findExistingTaskFile fs k with
  | some f => exact ⟨f, rfl⟩
  | none =>
    rcases h with ⟨f, hmem, hname⟩
    have := List.find?_eq_none.mp hf f hmem
    simp [hname] at this

theorem hasFileAt_writeFileOp_self (fs : FS) (d : Dir) (n c : String) :
    hasFileAt (writeFileOp fs d n c) d n := by
  unfold writeFileOp
  split
  next hex =>
    rcases List.any_eq_true.mp hex with ⟨f, hf, hcond⟩
    have hc2 : f.dir = d ∧ f.name = n := by simpa using hcond
    refine ⟨_, List.mem_map_of_mem _ hf, ?_⟩
    show ((fun f => if f.dir = d && f.name = n then { f with content := c } else f) f).dir = d ∧
      ((fun f => if f.dir = d && f.name = n then { f with content := c } else f) f).name = n
    simp only [if_pos hcond]
    exact hc2
  next => exact ⟨⟨d, n, c⟩, by simp, rfl, rfl⟩

theorem hasFileAt_writeFileOp_ne_name (fs : FS) (d' : Dir) (n' c : String) (d : Dir)
    (n : String) (hn : n ≠ n') (h : hasFileAt fs d n) :
    hasFileAt (writeFileOp fs d' n' c) d n := by
  rcases h with ⟨f, hmem, hdir, hname⟩
  unfold writeFileOp
  split
  · refine ⟨_, List.mem_map_of_mem _ hmem, ?_⟩
    have hc : ¬(f.dir = d' && f.name = n') = true := by
      simp only [Bool.and_eq_true, decide_eq_true_eq]
      rintro ⟨-, hfn⟩
      exact hn (hname ▸ hfn ▸ rfl)
    show ((fun f => if f.dir = d' && f.name = n' then { f with content := c } else f) f).dir = d ∧
      ((fun f => if f.dir = d' && f.name = n' then { f with content := c } else f) f).name = n
    simp only [if_neg hc]
    exact ⟨hdir, hname⟩
  · exact ⟨f, List.mem_append_left _ hmem, hdir, hname⟩

theorem hasFileAt_removeFileOp_ne_name (fs : FS) (d' : Dir) (n' : String) (d : Dir)
    (n : String) (hn : n ≠ n') (h : hasFileAt fs d n) :
    hasFileAt (removeFileOp fs d' n') d n := by
  rcases h with ⟨f, hmem, hdir, hname⟩
  refine ⟨f, ?_, hdir, hname⟩
  unfold removeFileOp
  rw [List.mem_filter]
  refine ⟨hmem, ?_⟩
  simp only [Bool.not_eq_true', Bool.and_eq_false_iff]
  right
  rw [decide_eq_false_iff_not]
  exact fun hfn => hn (hname ▸ hfn ▸ rfl)

theorem hasFileAt_removeFileOp_ne_dir (fs : FS) (d' : Dir) (n' : String) (d : Dir)
    (n : String) (hd : d ≠ d') (h : hasFileAt fs d n) :
    hasFileAt (removeFileOp fs d' n') d n := by
  rcases h with ⟨f, hmem, hdir, hname⟩
  refine ⟨f, ?_, hdir, hname⟩
  unfold removeFileOp
  rw [List.mem_filter]
  refine ⟨hmem, ?_⟩
  simp only [Bool.not_eq_true', Bool.and_eq_false_iff]
  left
  rw [decide_eq_false_iff_not]
  exact fun hfd => hd (hdir ▸ hfd ▸ rfl)

theorem hasFileNamed_of_hasFileAt (fs : FS) (d : Dir) (n : String) (h : hasFileAt fs d n) :
    hasFileNamed fs n := by
  rcases h with ⟨f, hmem, _, hname⟩
  exact ⟨f, hmem, hname⟩

theorem hasFileNamed_removeFileOp_ne (fs : FS) (d' : Dir) (n' N : String) (hn : N ≠ n')
    (h : hasFileNamed fs N) : hasFileNamed (removeFileOp fs d' n') N := by
  rw [hasFileNamed_iff_filesNamed] at h ⊢
  rw [filesNamed_removeFileOp_ne fs d' n' N hn]
  exact h

/-- `moveTaskFile` never loses the last file named `toName`: whatever
faults occur, either the original file is untouched or the copy at the
target path exists. -/
theorem hasFileNamed_moveTaskFile (F : Faults) (fs : FS) (fromFile : FsFile) (toDir : Dir)
    (toName : String) (hmem : fromFile ∈ fs) (hname : fromFile.name = toName)
    (hdir : fromFile.dir ≠ toDir) :
    hasFileNamed (moveTaskFile F fs fromFile toDir toName) toName := by
  unfold moveTaskFile
  split
  · exact ⟨fromFile, hmem, hname⟩
  · split
    · exact ⟨fromFile, hmem, hname⟩
    · split
      · exact hasFileNamed_of_hasFileAt _ toDir _ (hasFileAt_writeFileOp_self fs toDir toName _)
      · refine hasFileNamed_of_hasFileAt _ toDir _ ?_
        refine hasFileAt_removeFileOp_ne_dir _ _ _ _ _ (fun hh => hdir hh.symm) ?_
        exact hasFileAt_writeFileOp_self fs toDir toName _

theorem hasFileNamed_moveTaskFile_mono (F : Faults) (fs : FS) (fromFile : FsFile)
    (toDir : Dir) (toName N : String) (hname : fromFile.name = toName)
    (hdir : fromFile.dir ≠ toDir) (h : hasFileNamed fs N) :
    hasFileNamed (moveTaskFile F fs fromFile toDir toName) N := by
  by_cases hN : N = toName
  · subst hN
    rcases h with ⟨g, hg, hgname⟩
    unfold moveTaskFile
    split
    · exact ⟨g, hg, hgname⟩
    · split
      · exact ⟨g, hg, hgname⟩
      · split
        · exact hasFileNamed_of_hasFileAt _ toDir _ (hasFileAt_writeFileOp_self fs toDir N _)
        · refine hasFileNamed_of_hasFileAt _ toDir _ ?_
          refine hasFileAt_removeFileOp_ne_dir _ _ _ _ _ (fun hh => hdir hh.symm) ?_
          exact hasFileAt_writeFileOp_self fs toDir N _
  · unfold moveTaskFile
    split
    · exact h
    · split
      · exact h
      · have h1 := hasFileNamed_writeFileOp_mono fs toDir toName fromFile.content N h
        split
        · exact h1
        · exact hasFileNamed_removeFileOp_ne _ _ _ _ (hname ▸ hN) h1

theorem filesNamed_moveTaskFile_ne (F : Faults) (fs : FS) (fromFile : FsFile) (toDir : Dir)
    (toName N : String) (h1 : N ≠ toName) (h2 : N ≠ fromFile.name) :
    filesNamed (moveTaskFile F fs fromFile toDir toName) N = filesNamed fs N := by
  unfold moveTaskFile
  split
  · rfl
  · split
    · rfl
    · split
      · exact filesNamed_writeFileOp_ne fs toDir toName _ N h1
      · rw [filesNamed_removeFileOp_ne _ _ _ _ h2,
          filesNamed_writeFileOp_ne fs toDir toName _ N h1]

theorem syncStep_filesNamed_ne (F : Faults) (L : List BacklogIssue)
    (fmap : List (String × Dir)) (acc : SyncOutcome) (issue : BacklogIssue) (N : String)
    (h : N ≠ issue.issueKey ++ ".md") :
    filesNamed (syncStep F L fmap acc issue).fs N = filesNamed acc.fs N := by
  simp only [syncStep]
  split
  · rfl
  · cases hfind : findExistingTaskFile acc.fs issue.issueKey with
    | none =>
      dsimp only
      split
      · rfl
      · exact filesNamed_writeFileOp_ne _ _ _ _ _ h
    | some f =>
      have hfname := (find_name _ _ _ hfind).2
      dsimp only
      split
      · exact filesNamed_moveTaskFile_ne _ _ _ _ _ _ h (hfname ▸ h)
      · split
        · rfl
        · exact filesNamed_writeFileOp_ne _ _ _ _ _ h

theorem syncStep_hasFileNamed_mono (F : Faults) (L : List BacklogIssue)
    (fmap : List (String × Dir)) (acc : SyncOutcome) (issue : BacklogIssue) (N : String)
    (h : hasFileNamed acc.fs N) :
    hasFileNamed (syncStep F L fmap acc issue).fs N := by
  simp only [syncStep]
  split
  · exact h
  · cases hfind : findExistingTaskFile acc.fs issue.issueKey with
    | none =>
      dsimp only
      split
      · exact h
      · exact hasFileNamed_writeFileOp_mono _ _ _ _ _ h
    | some f =>
      have hfname := (find_name _ _ _ hfind).2
      dsimp only
      split
      next hmove =>
        exact hasFileNamed_moveTaskFile_mono _ _ _ _ _ _ hfname hmove h
      · split
        · exact h
        · exact hasFileNamed_writeFileOp_mono _ _ _ _ _ h

theorem syncStep_ensures (F : Faults) (L : List BacklogIssue)
    (fmap : List (String × Dir)) (acc : SyncOutcome) (issue : BacklogIssue)
    (hW : ∀ d, fails F (.write d (issue.issueKey ++ ".md")) = false)
    (herr : acc.err = none) :
    (syncStep F L fmap acc issue).err = none ∧
    hasFileNamed (syncStep F L fmap acc issue).fs (issue.issueKey ++ ".md") ∧
    (syncStep F L fmap acc issue).stats.recovered + (syncStep F L fmap acc issue).stats.moved +
        (syncStep F L fmap acc issue).stats.updated =
      acc.stats.recovered + acc.stats.moved + acc.stats.updated + 1 := by
  simp only [syncStep]
  rw [herr]
  simp only [Option.isSome_none, Bool.false_eq_true, if_false]
  cases hfind : findExistingTaskFile acc.fs issue.issueKey with
  | none =>
    dsimp only
    rw [hW _]
    simp only [Bool.false_eq_true, if_false]
    refine ⟨by trivial, ?_, by omega⟩
    exact hasFileNamed_of_hasFileAt _ _ _ (hasFileAt_writeFileOp_self _ _ _ _)
  | some f =>
    have hf := find_name _ _ _ hfind
    dsimp only
    split
    next hmove =>
      refine ⟨by trivial, ?_, by dsimp only; omega⟩
      exact hasFileNamed_moveTaskFile_mono _ _ _ _ _ _ hf.2 hmove ⟨f, hf.1, hf.2⟩
    · rw [hW _]
      simp only [Bool.false_eq_true, if_false]
      refine ⟨by trivial, ?_, by omega⟩
      exact hasFileNamed_writeFileOp_mono _ _ _ _ _ ⟨f, hf.1, hf.2⟩

theorem syncStep_recovered_stable (F : Faults) (L : List BacklogIssue)
    (fmap : List (String × Dir)) (acc : SyncOutcome) (issue : BacklogIssue)
    (hhas : hasFileNamed acc.fs (issue.issueKey ++ ".md")) :
    (syncStep F L fmap acc issue).stats.recovered = acc.stats.recovered := by
  simp only [syncStep]
  split
  · rfl
  · rcases find_of_hasFileNamed _ _ hhas with ⟨f, hfind⟩
    rw [hfind]
    dsimp only
    split
    · rfl
    · split
      · rfl
      · rfl

/-! ## Lemmas about the whole per-issue loop -/

theorem foldl_syncStep_filesNamed (F : Faults) (fmap : List (String × Dir))
    (L : List BacklogIssue) :
    ∀ (L' : List BacklogIssue) (acc : SyncOutcome) (N : String),
      (∀ j ∈ L', N ≠ j.issueKey ++ ".md") →
      filesNamed (L'.foldl (syncStep F L fmap) acc).fs N = filesNamed acc.fs N
  | [], _, _, _ => rfl
  | j :: js, acc, N, h => by
    rw [List.foldl_cons,
      foldl_syncStep_filesNamed F fmap L js _ N (fun i hi => h i (List.mem_cons_of_mem j hi)),
      syncStep_filesNamed_ne F L fmap acc j N (h j (List.mem_cons_self j js))]

theorem foldl_syncStep_hasFileNamed (F : Faults) (fmap : List (String × Dir))
    (L : List BacklogIssue) :
    ∀ (L' : List BacklogIssue) (acc : SyncOutcome) (N : String),
      hasFileNamed acc.fs N →
      hasFileNamed ((L'.foldl (syncStep F L fmap) acc).fs) N
  | [], _, _, h => h
  | j :: js, acc, N, h => by
    rw [List.foldl_cons]
    exact foldl_syncStep_hasFileNamed F fmap L js _ N
      (syncStep_hasFileNamed_mono F L fmap acc j N h)

theorem foldl_syncStep_ensures (F : Faults) (fmap : List (String × Dir))
    (L : List BacklogIssue) :
    ∀ (L' : List BacklogIssue) (acc : SyncOutcome),
      (∀ j ∈ L', ∀ d, fails F (.write d (j.issueKey ++ ".md")) = false) →
      acc.err = none →
      (L'.foldl (syncStep F L fmap) acc).err = none ∧
      (∀ j ∈ L', hasFileNamed ((L'.foldl (syncStep F L fmap) acc).fs) (j.issueKey ++ ".md")) ∧
      (L'.foldl (syncStep F L fmap) acc).stats.recovered +
          (L'.foldl (syncStep F L fmap) acc).stats.moved +
          (L'.foldl (syncStep F L fmap) acc).stats.updated =
        acc.stats.recovered + acc.stats.moved + acc.stats.updated + L'.length
  | [], acc, _, herr => ⟨herr, by simp, by simp⟩
  | j :: js, acc, hW, herr => by
    rw [List.foldl_cons]
    have hstep := syncStep_ensures F L fmap acc j (hW j (List.mem_cons_self j js)) herr
    have hrec := foldl_syncStep_ensures F fmap L js (syncStep F L fmap acc j)
      (fun g hg => hW g (List.mem_cons_of_mem j hg)) hstep.1
    refine ⟨hrec.1, ?_, ?_⟩
    · intro i hi
      rcases List.mem_cons.mp hi with rfl | hi
      · exact foldl_syncStep_hasFileNamed F fmap L js _ _ hstep.2.1
      · exact hrec.2.1 i hi
    · rw [hrec.2.2, hstep.2.2, List.length_cons]
      omega

theorem foldl_syncStep_recovered (F : Faults) (fmap : List (String × Dir))
    (L : List BacklogIssue) :
    ∀ (L' : List BacklogIssue) (acc : SyncOutcome),
      (∀ j ∈ L', hasFileNamed acc.fs (j.issueKey ++ ".md")) →
      (L'.foldl (syncStep F L fmap) acc).stats.recovered = acc.stats.recovered
  | [], _, _ => rfl
  | j :: js, acc, h => by
    rw [List.foldl_cons]
    have h1 := syncStep_recovered_stable F L fmap acc j (h j (List.mem_cons_self j js))
    rw [foldl_syncStep_recovered F fmap L js _ (fun i hi =>
      syncStep_hasFileNamed_mono F L fmap acc j _ (h i (List.mem_cons_of_mem j hi))), h1]

theorem fails_nil (op : FsOp) : fails [] op = false := rfl

/-! ## C5: idempotence of the sync pass -/

/-- C5 (amended): the second of two consecutive `syncIssues` runs over the
same issue set (no remote changes, no filesystem faults) performs zero
file creations — every filtered issue's file exists after the first run.
The second run is *not* free of moves or writes: folder targets are
computed from the pre-run snapshot of file locations, which the first run
may have changed (see the counterexample), and a file already in its
target folder has its content rewritten unconditionally. -/
theorem syncIssues_second_run_no_recover (issues : List BacklogIssue)
    (ignoreIssueTypes : List String) (idToKeyMap : List (Nat × String)) (fs : FS) :
    (syncIssuesF [] issues ignoreIssueTypes idToKeyMap
        (syncIssuesF [] issues ignoreIssueTypes idToKeyMap fs).fs).stats.recovered = 0 := by
  unfold syncIssuesF
  dsimp only
  set filtered := filterIgnoredIssueTypes issues ignoreIssueTypes with hfil
  set map1 := matchCustomFoldersWithIssues (buildIssueTreeMap filtered idToKeyMap) fs with hm1
  set run1 := filtered.foldl (syncStep [] filtered map1)
    ⟨fs, ⟨0, 0, 0⟩, none⟩ with hr1
  have hrun1 := foldl_syncStep_ensures [] map1 filtered filtered
    ⟨fs, ⟨0, 0, 0⟩, none⟩ (fun _ _ _ => rfl) rfl
  exact foldl_syncStep_recovered []
    (matchCustomFoldersWithIssues (buildIssueTreeMap filtered idToKeyMap) run1.fs)
    filtered filtered ⟨run1.fs, ⟨0, 0, 0⟩, none⟩ hrun1.2.1

/-- C5 counterexample: two issues `B-1` (parent) and `B-2` (child of
`B-1`), both starting in `others/`.  The first run moves `B-1` into the
`B-1/` folder but leaves `B-2` in `others/` (its target was computed from
the pre-run snapshot, where the parent still sat in `others/`); the second
run therefore performs one move and two content writes — not the zero
moves/writes the claim states. -/
theorem syncIssues_second_run_cx :
    let issP : BacklogIssue :=
      ⟨1, 1, "B-1", 1, ⟨"Task"⟩, "tP", "dP", ⟨"Normal"⟩, ⟨"Open"⟩, [], [], [],
        none, ⟨"u"⟩, "2024"⟩
    let issX : BacklogIssue :=
      ⟨2, 1, "B-2", 2, ⟨"Task"⟩, "tX", "dX", ⟨"Normal"⟩, ⟨"Open"⟩, [], [], [],
        some 1, ⟨"u"⟩, "2024"⟩
    let fs0 : FS := [⟨["others"], "B-1.md", "c1"⟩, ⟨["others"], "B-2.md", "c2"⟩]
    let run1 := syncIssuesF [] [issP, issX] [] [] fs0
    let run2 := syncIssuesF [] [issP, issX] [] [] run1.fs
    run2.stats.moved = 1 ∧ run2.stats.updated = 1 ∧ run2.stats.recovered = 0 := by
  refine ⟨by decide, by decide, by decide⟩

/-! ## C6: per-issue failure isolation in the sync batch -/

theorem fails_write_of_opName (F : Faults) (nm : String)
    (hF : ∀ op ∈ F, opName op = nm) (d : Dir) (n : String) (hn : n ≠ nm) :
    fails F (.write d n) = false := by
  cases hcon : fails F (.write d n) with
  | false => rfl
  | true =>
    have h2 : List.elem (FsOp.write d n) F = true := hcon
    exact absurd (hF _ (List.elem_iff.mp h2)) hn

theorem findExistingTaskFile_eq_of_filesNamed (fs1 fs2 : FS) (k : String)
    (h : filesNamed fs1 (k ++ ".md") = filesNamed fs2 (k ++ ".md")) :
    findExistingTaskFile fs1 k = findExistingTaskFile fs2 k := by
  unfold findExistingTaskFile
  rw [← List.filter_head?, ← List.filter_head?]
  unfold filesNamed at h
  rw [h]

/-- A step that takes the move branch never raises an exception, whatever
operations fault (`moveTaskFile` catches every error internally), and
counts exactly one move. -/
theorem syncStep_move_swallows (F : Faults) (L : List BacklogIssue)
    (fmap : List (String × Dir)) (acc : SyncOutcome) (issue : BacklogIssue) (f0 : FsFile)
    (herr : acc.err = none)
    (hfind : findExistingTaskFile acc.fs issue.issueKey = some f0)
    (hmove : f0.dir ≠ (jsGet fmap issue.issueKey).getD ["others"]) :
    (syncStep F L fmap acc issue).err = none ∧
    (syncStep F L fmap acc issue).stats.recovered = acc.stats.recovered ∧
    (syncStep F L fmap acc issue).stats.moved = acc.stats.moved + 1 ∧
    (syncStep F L fmap acc issue).stats.updated = acc.stats.updated := by
  simp only [syncStep]
  split
  next h => rw [herr] at h; simp at h
  next =>
    rw [hfind]
    dsimp only
    rw [if_pos hmove]
    exact ⟨herr, rfl, rfl, rfl⟩

/-- A batch whose list splits as `pre ++ i :: post`, where `i`'s step is a
move (its file sits away from its assigned folder) and where only the
non-move writes of `pre`/`post` are known fault-free, completes with no
exception and attempts every issue — whatever faults hit `i`'s move. -/
theorem foldl_syncStep_move_mixed (F : Faults) (fmap : List (String × Dir))
    (L : List BacklogIssue) (pre post : List BacklogIssue) (i : BacklogIssue)
    (f0 : FsFile) (acc : SyncOutcome) (herr : acc.err = none)
    (hWpre : ∀ j ∈ pre, ∀ d, fails F (.write d (j.issueKey ++ ".md")) = false)
    (hWpost : ∀ j ∈ post, ∀ d, fails F (.write d (j.issueKey ++ ".md")) = false)
    (hpre_ne : ∀ j ∈ pre, i.issueKey ++ ".md" ≠ j.issueKey ++ ".md")
    (hfind : findExistingTaskFile acc.fs i.issueKey = some f0)
    (hmove : f0.dir ≠ (jsGet fmap i.issueKey).getD ["others"]) :
    ((pre ++ i :: post).foldl (syncStep F L fmap) acc).err = none ∧
    ((pre ++ i :: post).foldl (syncStep F L fmap) acc).stats.recovered +
        ((pre ++ i :: post).foldl (syncStep F L fmap) acc).stats.moved +
        ((pre ++ i :: post).foldl (syncStep F L fmap) acc).stats.updated =
      acc.stats.recovered + acc.stats.moved + acc.stats.updated +
        (pre ++ i :: post).length := by
  rw [List.foldl_append, List.foldl_cons]
  have hpreRun := foldl_syncStep_ensures F fmap L pre acc hWpre herr
  have hfn := foldl_syncStep_filesNamed F fmap L pre acc (i.issueKey ++ ".md") hpre_ne
  have hfind1 : findExistingTaskFile (pre.foldl (syncStep F L fmap) acc).fs i.issueKey =
      some f0 := by
    rw [findExistingTaskFile_eq_of_filesNamed _ acc.fs i.issueKey hfn, hfind]
  have hstep := syncStep_move_swallows F L fmap _ i f0 hpreRun.1 hfind1 hmove
  have hpostRun := foldl_syncStep_ensures F fmap L post _ hWpost hstep.1
  refine ⟨hpostRun.1, ?_⟩
  have e1 := hpreRun.2.2
  have e2a := hstep.2.1
  have e2b := hstep.2.2.1
  have e2c := hstep.2.2.2
  have e3 := hpostRun.2.2
  rw [List.length_append, List.length_cons]
  omega

/-- C6 (amended): a failure to read, write or delete inside the move of
one issue's file is caught inside `moveTaskFile` and logged, and the
remaining issues of the batch are still attempted; but a failure of the
uncaught write that creates a missing file or updates a file in place
aborts the remaining issues (see the counterexample).  Part one: when
every faulting operation targets the file of one issue whose step is a
move (its file sits away from its assigned folder), the whole batch
completes without an exception and every filtered issue is processed.
Part two: when no write operation faults at all (read/delete faults can
only arise inside moves), the batch likewise completes and attempts every
issue. -/
theorem syncIssues_fault_isolation :
    (∀ (F : Faults) (issues : List BacklogIssue) (ignoreIssueTypes : List String)
        (idToKeyMap : List (Nat × String)) (fs : FS) (i : BacklogIssue) (f0 : FsFile),
      ((filterIgnoredIssueTypes issues ignoreIssueTypes).map BacklogIssue.issueKey).Nodup →
      i ∈ filterIgnoredIssueTypes issues ignoreIssueTypes →
      findExistingTaskFile fs i.issueKey = some f0 →
      f0.dir ≠ (jsGet (matchCustomFoldersWithIssues
          (buildIssueTreeMap (filterIgnoredIssueTypes issues ignoreIssueTypes) idToKeyMap)
          fs) i.issueKey).getD ["others"] →
      (∀ op ∈ F, opName op = i.issueKey ++ ".md") →
      (syncIssuesF F issues ignoreIssueTypes idToKeyMap fs).err = none ∧
      (syncIssuesF F issues ignoreIssueTypes idToKeyMap fs).stats.recovered +
          (syncIssuesF F issues ignoreIssueTypes idToKeyMap fs).stats.moved +
          (syncIssuesF F issues ignoreIssueTypes idToKeyMap fs).stats.updated =
        (filterIgnoredIssueTypes issues ignoreIssueTypes).length) ∧
    (∀ (F : Faults) (issues : List BacklogIssue) (ignoreIssueTypes : List String)
        (idToKeyMap : List (Nat × String)) (fs : FS),
      (∀ d n, fails F (.write d n) = false) →
      (syncIssuesF F issues ignoreIssueTypes idToKeyMap fs).err = none ∧
      (syncIssuesF F issues ignoreIssueTypes idToKeyMap fs).stats.recovered +
          (syncIssuesF F issues ignoreIssueTypes idToKeyMap fs).stats.moved +
          (syncIssuesF F issues ignoreIssueTypes idToKeyMap fs).stats.updated =
        (filterIgnoredIssueTypes issues ignoreIssueTypes).length) := by
  constructor
  · intro F issues ignoreIssueTypes idToKeyMap fs i f0 hnodup hi hfind hmove hF
    obtain ⟨pre, post, hsplit⟩ := List.append_of_mem hi
    rw [hsplit, List.map_append, List.map_cons] at hnodup
    obtain ⟨hn1, hn2, hdisj⟩ := List.nodup_append.mp hnodup
    have hipre : ∀ j ∈ pre, j.issueKey ≠ i.issueKey := by
      intro j hj hcon
      exact hdisj (List.mem_map_of_mem _ hj)
        (by rw [hcon]; exact List.mem_cons_self _ _)
    have hipost : ∀ j ∈ post, j.issueKey ≠ i.issueKey := by
      intro j hj hcon
      exact (List.nodup_cons.mp hn2).1 (hcon ▸ List.mem_map_of_mem _ hj)
    have hWpre : ∀ j ∈ pre, ∀ d, fails F (.write d (j.issueKey ++ ".md")) = false :=
      fun j hj d => fails_write_of_opName F _ hF d _
        (fun hcon => hipre j hj (mdAppend_inj _ _ hcon))
    have hWpost : ∀ j ∈ post, ∀ d, fails F (.write d (j.issueKey ++ ".md")) = false :=
      fun j hj d => fails_write_of_opName F _ hF d _
        (fun hcon => hipost j hj (mdAppend_inj _ _ hcon))
    have hpre_ne : ∀ j ∈ pre, i.issueKey ++ ".md" ≠ j.issueKey ++ ".md" :=
      fun j hj hcon => hipre j hj (mdAppend_inj _ _ hcon).symm
    rw [hsplit] at hmove
    unfold syncIssuesF
    dsimp only
    rw [hsplit]
    have h := foldl_syncStep_move_mixed F
      (matchCustomFoldersWithIssues (buildIssueTreeMap (pre ++ i :: post) idToKeyMap) fs)
      (pre ++ i :: post) pre post i f0 ⟨fs, ⟨0, 0, 0⟩, none⟩ rfl
      hWpre hWpost hpre_ne hfind hmove
    refine ⟨h.1, ?_⟩
    have h2 := h.2
    dsimp only at h2
    omega
  · intro F issues ignoreIssueTypes idToKeyMap fs hW
    unfold syncIssuesF
    dsimp only
    have h := foldl_syncStep_ensures F
      (matchCustomFoldersWithIssues
        (buildIssueTreeMap (filterIgnoredIssueTypes issues ignoreIssueTypes) idToKeyMap) fs)
      (filterIgnoredIssueTypes issues ignoreIssueTypes)
      (filterIgnoredIssueTypes issues ignoreIssueTypes) ⟨fs, ⟨0, 0, 0⟩, none⟩
      (fun j _ d => hW d _) rfl
    refine ⟨h.1, ?_⟩
    have h2 := h.2.2
    dsimp only at h2
    omega

/-- C6 counterexample: a write failure during the in-place update of the
first issue aborts the loop — the second issue's missing file is *not*
created, although it is created when no fault occurs.  A per-issue
filesystem failure therefore can abort the rest of the batch. -/
theorem syncIssues_fault_isolation_cx :
    let iss3 : BacklogIssue :=
      ⟨3, 1, "B-3", 3, ⟨"Task"⟩, "t3", "d3", ⟨"Normal"⟩, ⟨"Open"⟩, [], [], [],
        none, ⟨"u"⟩, "2024"⟩
    let iss4 : BacklogIssue :=
      ⟨4, 1, "B-4", 4, ⟨"Task"⟩, "t4", "d4", ⟨"Normal"⟩, ⟨"Open"⟩, [], [], [],
        none, ⟨"u"⟩, "2024"⟩
    let fs6 : FS := [⟨["others"], "B-3.md", "c"⟩]
    let faulty := syncIssuesF [FsOp.write ["others"] "B-3.md"] [iss3, iss4] [] [] fs6
    let clean := syncIssuesF [] [iss3, iss4] [] [] fs6
    faulty.err = some "B-3" ∧ faulty.fs.all (fun f => f.name ≠ "B-4.md") = true ∧
      clean.fs.any (fun f => f.name = "B-4.md") = true := by
  refine ⟨by decide, by decide, by decide⟩

/-- Witness for the fault-isolation theorem: a *write* fault hitting the
move of `C-1` (whose file sits in a stray `C-9/` folder, away from its
assigned `others/`) is swallowed inside the move, and both issues are
still attempted — `C-2`'s missing file is recovered. -/
theorem syncIssues_fault_isolation_witness :
    let c1 : BacklogIssue :=
      ⟨5, 1, "C-1", 5, ⟨"Task"⟩, "t5", "d5", ⟨"Normal"⟩, ⟨"Open"⟩, [], [], [],
        none, ⟨"u"⟩, "2024"⟩
    let c2 : BacklogIssue :=
      ⟨6, 1, "C-2", 6, ⟨"Task"⟩, "t6", "d6", ⟨"Normal"⟩, ⟨"Open"⟩, [], [], [],
        none, ⟨"u"⟩, "2024"⟩
    let fsW : FS := [⟨["C-9"], "C-1.md", "c"⟩]
    let F : Faults := [FsOp.write ["others"] "C-1.md"]
    let out := syncIssuesF F [c1, c2] [] [] fsW
    out.err = none ∧ out.stats.recovered + out.stats.moved + out.stats.updated = 2 := by
  intro c1 c2 fsW F out
  have h := syncIssues_fault_isolation.1 F [c1, c2] [] [] fsW c1
    ⟨["C-9"], "C-1.md", "c"⟩ (by decide) (by decide) (by decide) (by decide) (by decide)
  exact ⟨h.1, h.2.trans (by decide)⟩


theorem filterIgnored_mem (issues : List BacklogIssue) (ignoreIssueTypes : List String)
    (i : BacklogIssue) :
    i ∈ filterIgnoredIssueTypes issues ignoreIssueTypes ↔
      i ∈ issues ∧
        (ignoreIssueTypes.map jsToLower).contains (jsToLower i.issueType.name) = false := by
  unfold filterIgnoredIssueTypes
  split
  next hemp =>
    have : ignoreIssueTypes = [] := List.isEmpty_iff.mp hemp
    subst this
    simp
  next =>
    rw [List.mem_filter]
    constructor
    · rintro ⟨hi, hp⟩
      exact ⟨hi, by simpa using hp⟩
    · rintro ⟨hi, hp⟩
      exact ⟨hi, by simpa using hp⟩

/-- C4 (amended): `syncIssues` excludes exactly the issues whose
issue-type display name is in the `ignoredTypes` list, with the match
performed *case-insensitively* (both sides are lower-cased); for every
excluded issue, no file named `{issueKey}.md` is created, moved, deleted
or modified during the pass. -/
theorem syncIssues_ignored_untouched (issues : List BacklogIssue)
    (ignoreIssueTypes : List String) (idToKeyMap : List (Nat × String)) (fs : FS)
    (e : BacklogIssue) (hnodup : (issues.map BacklogIssue.issueKey).Nodup)
    (he : e ∈ issues)
    (hex : (ignoreIssueTypes.map jsToLower).contains (jsToLower e.issueType.name) = true) :
    e ∉ filterIgnoredIssueTypes issues ignoreIssueTypes ∧
    (∀ i, i ∈ filterIgnoredIssueTypes issues ignoreIssueTypes ↔
      i ∈ issues ∧
        (ignoreIssueTypes.map jsToLower).contains (jsToLower i.issueType.name) = false) ∧
    filesNamed (syncIssuesF [] issues ignoreIssueTypes idToKeyMap fs).fs
        (e.issueKey ++ ".md") =
      filesNamed fs (e.issueKey ++ ".md") := by
  refine ⟨?_, fun i => filterIgnored_mem issues ignoreIssueTypes i, ?_⟩
  · intro hmem
    have := (filterIgnored_mem issues ignoreIssueTypes e).mp hmem
    rw [hex] at this
    exact absurd this.2 (by simp)
  · unfold syncIssuesF
    dsimp only
    apply foldl_syncStep_filesNamed
    intro j hj heq
    have hji := (filterIgnored_mem issues ignoreIssueTypes j).mp hj
    have hkey : e.issueKey = j.issueKey := mdAppend_inj _ _ heq
    have : e = j := List.inj_on_of_nodup_map hnodup he hji.1 hkey
    rw [← this] at hji
    rw [hex] at hji
    exact absurd hji.2 (by simp)

/-- C4 counterexample: the type-name match is case-insensitive, not
case-sensitive — an issue of type `Bug` is excluded by
`ignoredTypes = ["bug"]` although `"Bug"` is not an element of that
list. -/
theorem syncIssues_ignored_case_cx :
    let issT : BacklogIssue :=
      ⟨3, 1, "T-1", 3, ⟨"Bug"⟩, "t", "d", ⟨"Normal"⟩, ⟨"Open"⟩, [], [], [],
        none, ⟨"u"⟩, "2024"⟩
    filterIgnoredIssueTypes [issT] ["bug"] = [] ∧
      issT.issueType.name = "Bug" ∧ (["bug"] : List String).contains "Bug" = false := by
  refine ⟨by decide, by decide, by decide⟩

/-- Witness for the ignored-type theorem: an excluded `Bug` issue whose
file survives the pass untouched. -/
theorem syncIssues_ignored_untouched_witness :
    let issT : BacklogIssue :=
      ⟨3, 1, "T-1", 3, ⟨"Bug"⟩, "t", "d", ⟨"Normal"⟩, ⟨"Open"⟩, [], [], [],
        none, ⟨"u"⟩, "2024"⟩
    let fsT : FS := [⟨["others"], "T-1.md", "x"⟩]
    issT ∉ filterIgnoredIssueTypes [issT] ["bug"] ∧
    filesNamed (syncIssuesF [] [issT] ["bug"] [] fsT).fs "T-1.md" =
      filesNamed fsT "T-1.md" := by
  intro issT fsT
  have h := syncIssues_ignored_untouched [issT] ["bug"] [] fsT issT
    (by decide) (by decide) (by decide)
  exact ⟨h.1, h.2.2⟩

/-! ## C10: orphan cleanup only touches bare-key task files -/

theorem removeTaskFileByKey_sublist (fs : FS) (k : String) :
    (removeTaskFileByKey fs k).Sublist fs := by
  unfold removeTaskFileByKey
  split
  · exact List.filter_sublist fs
  · exact List.Sublist.refl fs

theorem foldl_remove_sublist :
    ∀ (rks : List String) (fs : FS), (rks.foldl removeTaskFileByKey fs).Sublist fs
  | [], _ => List.Sublist.refl _
  | r :: rs, fs => by
    rw [List.foldl_cons]
    exact (foldl_remove_sublist rs _).trans (removeTaskFileByKey_sublist fs r)

theorem removeTaskFileByKey_keeps (fs : FS) (k : String) (f : FsFile)
    (hpat : taskFileNamePattern (k ++ ".md") = true) (hf : f ∈ fs)
    (hnp : taskFileNamePattern f.name = false) : f ∈ removeTaskFileByKey fs k := by
  unfold removeTaskFileByKey
  cases hfind : findExistingTaskFile fs k with
  | none => exact hf
  | some f0 =>
    have hf0name := (find_name _ _ _ hfind).2
    unfold removeFileOp
    rw [List.mem_filter]
    refine ⟨hf, ?_⟩
    simp only [Bool.not_eq_true', Bool.and_eq_false_iff]
    right
    rw [decide_eq_false_iff_not]
    intro hcon
    rw [hcon, hf0name] at hnp
    rw [hpat] at hnp
    exact Bool.true_eq_false.mp hnp

theorem foldl_remove_keeps :
    ∀ (rks : List String) (fs : FS) (f : FsFile),
      (∀ k ∈ rks, taskFileNamePattern (k ++ ".md") = true) → f ∈ fs →
      taskFileNamePattern f.name = false → f ∈ rks.foldl removeTaskFileByKey fs
  | [], _, _, _, hf, _ => hf
  | r :: rs, fs, f, hall, hf, hnp => by
    rw [List.foldl_cons]
    exact foldl_remove_keeps rs _ f (fun k hk => hall k (List.mem_cons_of_mem r hk))
      (removeTaskFileByKey_keeps fs r f (hall r (List.mem_cons_self r rs)) hf hnp) hnp

theorem removedKeys_pattern (fs : FS) (keys : List String) (k : String)
    (hk : k ∈ ((getExistingTaskFiles fs).map (fun f => keyOfFileName f.name)).filter
      (fun k => !keys.contains k)) : taskFileNamePattern (k ++ ".md") = true := by
  have hk2 := List.mem_of_mem_filter hk
  rcases List.mem_map.mp hk2 with ⟨f, hf, rfl⟩
  have hfp : taskFileNamePattern f.name = true := by
    have h2 := (List.mem_filter.mp hf).2
    rw [Bool.and_eq_true] at h2
    exact h2.2
  rw [(pattern_keyOf f.name hfp).1]
  exact hfp

/-- C10 (confirmed): `cleanupRemovedIssues` only ever deletes files whose
name matches `^[A-Z]+-\d+\.md$`: the result is a sub-list of the input
state, and every file whose name does not match the bare issue-key
pattern — in particular the `.last-sync` state file and any user file —
survives unchanged.  (Directories are never removed by it at all: the
operation only deletes files.) -/
theorem cleanupRemovedIssues_frame (currentIssueKeys : List String) (fs : FS) :
    (cleanupRemovedIssues currentIssueKeys fs).Sublist fs ∧
    (∀ f ∈ fs, taskFileNamePattern f.name = false →
      f ∈ cleanupRemovedIssues currentIssueKeys fs) := by
  unfold cleanupRemovedIssues
  refine ⟨foldl_remove_sublist _ fs, ?_⟩
  intro f hf hnp
  exact foldl_remove_keeps _ fs f (fun k hk => removedKeys_pattern fs currentIssueKeys k hk)
    hf hnp

/-- Witness for the cleanup frame: with no issues fetched, the
`.last-sync` file and a user note survive a cleanup that deletes the only
task file. -/
theorem cleanupRemovedIssues_frame_witness :
    let fs : FS := [⟨[], ".last-sync", "s"⟩, ⟨["others"], "E-9.md", "x"⟩,
      ⟨["sprint-3"], "notes.md", "n"⟩]
    taskFileNamePattern ".last-sync" = false ∧ taskFileNamePattern "notes.md" = false ∧
    (⟨[], ".last-sync", "s"⟩ : FsFile) ∈ cleanupRemovedIssues [] fs ∧
    (⟨["sprint-3"], "notes.md", "n"⟩ : FsFile) ∈ cleanupRemovedIssues [] fs ∧
    (cleanupRemovedIssues [] fs).Sublist fs := by
  intro fs
  have h := cleanupRemovedIssues_frame [] fs
  exact ⟨by decide, by decide,
    h.2 ⟨[], ".last-sync", "s"⟩ (by decide) (by decide),
    h.2 ⟨["sprint-3"], "notes.md", "n"⟩ (by decide) (by decide), h.1⟩

/-! ## C3: orphan cleanup deletes exactly the stale keys (full sync only) -/

/-- Occurrences of a string in a list. -/
def countStr (l : List String) (k : String) : Nat := l.countP (fun s => s = k)

theorem countNamed_cons (f : FsFile) (fs : FS) (N : String) :
    countNamed (f :: fs) N = countNamed fs N + (if f.name = N then 1 else 0) := by
  unfold countNamed
  rw [List.countP_cons]
  split
  next h => rw [if_pos (by simpa using h)]
  next h => rw [if_neg (by simpa using h)]

theorem countNamed_pos_of_mem (fs : FS) (f : FsFile) (N : String) (hf : f ∈ fs)
    (hname : f.name = N) : 0 < countNamed fs N := by
  unfold countNamed
  rw [List.countP_pos_iff]
  exact ⟨f, hf, by simpa using hname⟩

theorem countNamed_filter_le (q : FsFile → Bool) (t : FS) (N : String) :
    countNamed (t.filter q) N ≤ countNamed t N := by
  unfold countNamed
  exact List.Sublist.countP_le _ (List.filter_sublist t)

theorem countNamed_removeFileOp_dec (fs : FS) (f0 : FsFile) (N : String)
    (hmem : f0 ∈ fs) (hname : f0.name = N) :
    countNamed (removeFileOp fs f0.dir f0.name) N + 1 ≤ countNamed fs N := by
  induction fs with
  | nil => exact absurd hmem (List.not_mem_nil f0)
  | cons g t ih =>
    rw [countNamed_cons]
    unfold removeFileOp
    rw [List.filter_cons]
    by_cases hg : g.dir = f0.dir ∧ g.name = f0.name
    · rw [if_neg (by simp [hg.1, hg.2])]
      have hgN : g.name = N := hg.2 ▸ hname
      rw [if_pos hgN]
      have hle := countNamed_filter_le
        (fun f => !(f.dir = f0.dir && f.name = f0.name)) t N
      omega
    · have hcond : (!(g.dir = f0.dir && g.name = f0.name)) = true := by
        rcases not_and_or.mp hg with h | h <;> simp [h]
      rw [if_pos hcond]
      have hmem2 : f0 ∈ t := by
        rcases List.mem_cons.mp hmem with rfl | h
        · exact absurd ⟨rfl, rfl⟩ hg
        · exact h
      have h2 := ih hmem2
      rw [countNamed_cons]
      unfold removeFileOp at h2
      omega

theorem countNamed_removeTaskFileByKey_other (fs : FS) (r k0 : String) (h : r ≠ k0) :
    countNamed (removeTaskFileByKey fs r) (k0 ++ ".md") = countNamed fs (k0 ++ ".md") := by
  unfold removeTaskFileByKey
  cases hfind : findExistingTaskFile fs r with
  | none => rfl
  | some f0 =>
    have hf0 := find_name _ _ _ hfind
    have : (k0 ++ ".md") ≠ f0.name := by
      rw [hf0.2]
      exact fun hcon => h (mdAppend_inj _ _ hcon).symm
    calc countNamed (removeFileOp fs f0.dir f0.name) (k0 ++ ".md")
        = (filesNamed (removeFileOp fs f0.dir f0.name) (k0 ++ ".md")).length := by
          unfold countNamed filesNamed; rw [List.countP_eq_length_filter]
      _ = (filesNamed fs (k0 ++ ".md")).length := by
          rw [filesNamed_removeFileOp_ne fs f0.dir f0.name _ this]
      _ = countNamed fs (k0 ++ ".md") := by
          unfold countNamed filesNamed; rw [List.countP_eq_length_filter]

theorem countNamed_zero_of_find_none (fs : FS) (k : String)
    (h : findExistingTaskFile fs k = none) : countNamed fs (k ++ ".md") = 0 := by
  unfold countNamed
  rw [List.countP_eq_zero]
  intro f hf
  have := List.find?_eq_none.mp h f hf
  simpa using this

theorem foldl_remove_all :
    ∀ (rks : List String) (fs : FS) (k0 : String),
      countNamed fs (k0 ++ ".md") ≤ countStr rks k0 →
      countNamed (rks.foldl removeTaskFileByKey fs) (k0 ++ ".md") = 0
  | [], fs, k0, h => by
    have : countNamed fs (k0 ++ ".md") = 0 := by
      unfold countStr at h
      simpa using h
    simpa using this
  | r :: rs, fs, k0, h => by
    rw [List.foldl_cons]
    by_cases hr : r = k0
    · subst hr
      cases hfind : findExistingTaskFile fs r with
      | none =>
        have h0 := countNamed_zero_of_find_none fs r hfind
        have hstep : removeTaskFileByKey fs r = fs := by
          unfold removeTaskFileByKey
          rw [hfind]
        rw [hstep]
        exact foldl_remove_all rs fs r (by omega)
      | some f0 =>
        have hf0 := find_name _ _ _ hfind
        have hdec := countNamed_removeFileOp_dec fs f0 (r ++ ".md") hf0.1 hf0.2
        have hstep : removeTaskFileByKey fs r = removeFileOp fs f0.dir f0.name := by
          unfold removeTaskFileByKey
          rw [hfind]
        have hcount : countStr (r :: rs) r = countStr rs r + 1 := by
          unfold countStr
          rw [List.countP_cons]
          simp
        rw [hstep]
        refine foldl_remove_all rs _ r ?_
        rw [hcount] at h
        omega
    · have hstep := countNamed_removeTaskFileByKey_other fs r k0 hr
      have hcount : countStr (r :: rs) k0 = countStr rs k0 := by
        unfold countStr
        rw [List.countP_cons]
        simp [hr]
      refine foldl_remove_all rs _ k0 ?_
      rw [hstep]
      rw [hcount] at h
      exact h

theorem countStr_removedKeys_ge (keys : List String) (k0 : String)
    (hpat : taskFileNamePattern (k0 ++ ".md") = true) (hk0 : keys.contains k0 = false) :
    ∀ fs : FS, countNamed fs (k0 ++ ".md") ≤
      countStr (((getExistingTaskFiles fs).map (fun f => keyOfFileName f.name)).filter
        (fun k => !keys.contains k)) k0
  | [] => Nat.le_refl 0
  | f :: t => by
    have ih := countStr_removedKeys_ge keys k0 hpat hk0 t
    rw [countNamed_cons]
    unfold getExistingTaskFiles at ih ⊢
    rw [List.filter_cons]
    by_cases hf : f.name = k0 ++ ".md"
    · have hcoll : (strEndsWith f.name ".md" && taskFileNamePattern f.name) = true := by
        rw [hf, (pattern_keyOf _ hpat).2, hpat]
        rfl
      rw [if_pos hf, if_pos hcoll, List.map_cons, List.filter_cons]
      have hkey : keyOfFileName f.name = k0 := by
        rw [hf]
        exact pattern_keyOf_append k0 hpat
      rw [hkey, if_pos (by rw [hk0]; rfl)]
      unfold countStr
      rw [List.countP_cons, if_pos (by simp)]
      unfold countStr at ih
      omega
    · rw [if_neg hf]
      by_cases hcol : (strEndsWith f.name ".md" && taskFileNamePattern f.name) = true
      · rw [if_pos hcol, List.map_cons, List.filter_cons]
        by_cases hkf : (!keys.contains (keyOfFileName f.name)) = true
        · rw [if_pos hkf]
          unfold countStr
          rw [List.countP_cons]
          unfold countStr at ih
          omega
        · rw [if_neg hkf]
          unfold countStr at ih ⊢
          omega
      · rw [if_neg hcol]
        unfold countStr at ih ⊢
        omega

theorem cleanup_complete (keys : List String) (fs : FS) (f : FsFile)
    (hf : f ∈ cleanupRemovedIssues keys fs) (hpat : taskFileNamePattern f.name = true) :
    keys.contains (keyOfFileName f.name) = true := by
  by_contra hcon
  have hk0 : keys.contains (keyOfFileName f.name) = false := by
    simpa using hcon
  have hname : f.name = keyOfFileName f.name ++ ".md" := (pattern_keyOf f.name hpat).1.symm
  have hpat2 : taskFileNamePattern (keyOfFileName f.name ++ ".md") = true := by
    rw [← hname]; exact hpat
  have hge := countStr_removedKeys_ge keys (keyOfFileName f.name) hpat2 hk0 fs
  have hzero := foldl_remove_all _ fs (keyOfFileName f.name) hge
  unfold cleanupRemovedIssues at hf
  have hpos := countNamed_pos_of_mem _ f _ hf hname
  rw [hzero] at hpos
  exact Nat.lt_irrefl 0 hpos

theorem syncIssuesF_nil_err (issues : List BacklogIssue) (ignoreIssueTypes : List String)
    (idToKeyMap : List (Nat × String)) (fs : FS) :
    (syncIssuesF [] issues ignoreIssueTypes idToKeyMap fs).err = none := by
  unfold syncIssuesF
  dsimp only
  exact (foldl_syncStep_ensures []
    (matchCustomFoldersWithIssues
      (buildIssueTreeMap (filterIgnoredIssueTypes issues ignoreIssueTypes) idToKeyMap) fs)
    (filterIgnoredIssueTypes issues ignoreIssueTypes)
    (filterIgnoredIssueTypes issues ignoreIssueTypes) ⟨fs, ⟨0, 0, 0⟩, none⟩
    (fun _ _ _ => rfl) rfl).1

theorem mem_of_filesNamed_eq (fs1 fs2 : FS) (f : FsFile)
    (heq : filesNamed fs2 f.name = filesNamed fs1 f.name) (hf : f ∈ fs1) : f ∈ fs2 := by
  have h1 : f ∈ filesNamed fs1 f.name := List.mem_filter.mpr ⟨hf, by simp⟩
  rw [← heq] at h1
  exact List.mem_of_mem_filter h1

/-- C3 (amended): on a first-time full sync (no persisted timestamp), the
`sync-issues` handler deletes every `{issueKey}.md` file whose key is not
among the keys of the *fetched* issue set — the keys are taken before the
ignored-type filter, so a stale file whose key matches a fetched
ignored-type issue is kept (see the counterexample); on an incremental
sync (timestamp present) no file is deleted for being absent from the
fetch. -/
theorem syncTool_orphan_cleanup (fetchedIssues : List BacklogIssue)
    (ignoreIssueTypes : List String) (idToKeyMap : List (Nat × String)) (fs : FS) :
    (∀ f ∈ syncIssuesToolRun none fetchedIssues ignoreIssueTypes idToKeyMap fs,
      taskFileNamePattern f.name = true →
      (fetchedIssues.map BacklogIssue.issueKey).contains (keyOfFileName f.name) = true) ∧
    (∀ (t : String) (f : FsFile), f ∈ fs →
      (∀ i ∈ fetchedIssues, f.name ≠ i.issueKey ++ ".md") →
      f ∈ syncIssuesToolRun (some t) fetchedIssues ignoreIssueTypes idToKeyMap fs) := by
  constructor
  · intro f hf hpat
    unfold syncIssuesToolRun at hf
    rw [if_pos (by
      rw [syncIssuesF_nil_err fetchedIssues ignoreIssueTypes idToKeyMap fs]
      rfl)] at hf
    exact cleanup_complete _ _ f hf hpat
  · intro t f hf hnames
    unfold syncIssuesToolRun
    rw [if_neg (by simp)]
    unfold syncIssuesF
    dsimp only
    refine mem_of_filesNamed_eq fs _ f ?_ hf
    apply foldl_syncStep_filesNamed
    intro j hj
    exact hnames j ((filterIgnored_mem fetchedIssues ignoreIssueTypes j).mp hj).1

/-- C3 counterexample: a fetched issue of an ignored type (`Bug`) whose
stale file exists locally.  The filtered issue set is empty, so the claim
says the file is deleted on a first-time full sync — but the handler
passes the *unfiltered* fetched keys to `cleanupRemovedIssues`
(`server.ts:91`), so the file survives. -/
theorem syncTool_orphan_cleanup_cx :
    let issT : BacklogIssue :=
      ⟨3, 1, "T-1", 3, ⟨"Bug"⟩, "t", "d", ⟨"Normal"⟩, ⟨"Open"⟩, [], [], [],
        none, ⟨"u"⟩, "2024"⟩
    let fsT : FS := [⟨["others"], "T-1.md", "x"⟩]
    filterIgnoredIssueTypes [issT] ["Bug"] = [] ∧
      (⟨["others"], "T-1.md", "x"⟩ : FsFile) ∈
        syncIssuesToolRun none [issT] ["Bug"] [] fsT := by
  refine ⟨by decide, by decide⟩

/-- Witness for the cleanup theorem: an incremental sync (timestamp
present) of an empty fetch leaves an untouched file in place; a full sync
of one fetched issue keeps that issue's own file. -/
theorem syncTool_orphan_cleanup_witness :
    let fsE : FS := [⟨["others"], "E-9.md", "x"⟩]
    (⟨["others"], "E-9.md", "x"⟩ : FsFile) ∈
      syncIssuesToolRun (some "2024-01-01") [] [] [] fsE := by
  intro fsE
  exact (syncTool_orphan_cleanup [] [] [] fsE).2 "2024-01-01"
    ⟨["others"], "E-9.md", "x"⟩ (by decide) (by intro i hi; cases hi)

/-! ## C1: a custom folder is sticky -/

/-- Every file named `{k}.md` sits in directory `d`, and one exists. -/
abbrev DirInv (fs : FS) (k : String) (d : Dir) : Prop :=
  hasFileAt fs d (k ++ ".md") ∧ ∀ f ∈ fs, f.name = k ++ ".md" → f.dir = d

theorem foldl_loc_skip (k : String) :
    ∀ (l : FS) (acc : Option Dir), (∀ f ∈ l, ¬(keyOfFileName f.name = k)) →
      l.foldl (fun acc f => if keyOfFileName f.name = k then some f.dir else acc) acc = acc
  | [], _, _ => rfl
  | f :: t, acc, h => by
    rw [List.foldl_cons, if_neg (h f (List.mem_cons_self f t))]
    exact foldl_loc_skip k t acc (fun g hg => h g (List.mem_cons_of_mem f hg))

theorem foldl_loc_eq (k : String) (d : Dir) :
    ∀ (l : FS) (acc : Option Dir), (∃ f ∈ l, keyOfFileName f.name = k) →
      (∀ f ∈ l, keyOfFileName f.name = k → f.dir = d) →
      l.foldl (fun acc f => if keyOfFileName f.name = k then some f.dir else acc) acc = some d
  | [], _, hex, _ => absurd hex (by simp)
  | f :: t, acc, hex, hall => by
    rw [List.foldl_cons]
    by_cases hk : keyOfFileName f.name = k
    · rw [if_pos hk]
      by_cases hex2 : ∃ g ∈ t, keyOfFileName g.name = k
      · exact foldl_loc_eq k d t _ hex2 (fun g hg => hall g (List.mem_cons_of_mem f hg))
      · push_neg at hex2
        rw [foldl_loc_skip k t _ hex2]
        rw [hall f (List.mem_cons_self f t) hk]
    · rw [if_neg hk]
      have hex2 : ∃ g ∈ t, keyOfFileName g.name = k := by
        rcases hex with ⟨g, hg, hgk⟩
        rcases List.mem_cons.mp hg with rfl | hg2
        · exact absurd hgk hk
        · exact ⟨g, hg2, hgk⟩
      exact foldl_loc_eq k d t _ hex2 (fun g hg => hall g (List.mem_cons_of_mem f hg))

theorem existingIssueLocations_const (fs : FS) (k : String) (d : Dir)
    (hpat : taskFileNamePattern (k ++ ".md") = true)
    (hex : hasFileAt fs d (k ++ ".md"))
    (hall : ∀ f ∈ fs, f.name = k ++ ".md" → f.dir = d) :
    existingIssueLocations fs k = some d := by
  unfold existingIssueLocations
  have hchar : ∀ f ∈ getExistingTaskFiles fs, keyOfFileName f.name = k →
      f.name = k ++ ".md" := by
    intro f hf hkf
    have hfp : taskFileNamePattern f.name = true := by
      have h2 := (List.mem_filter.mp hf).2
      rw [Bool.and_eq_true] at h2
      exact h2.2
    rw [← (pattern_keyOf f.name hfp).1, hkf]
  apply foldl_loc_eq
  · rcases hex with ⟨f, hmem, hdir, hname⟩
    refine ⟨f, ?_, ?_⟩
    · refine List.mem_filter.mpr ⟨hmem, ?_⟩
      rw [hname, (pattern_keyOf _ hpat).2, hpat]
      rfl
    · rw [hname]
      exact pattern_keyOf_append k hpat
  · intro f hf hkf
    exact hall f (List.mem_of_mem_filter hf) (hchar f hf hkf)

theorem foldl_jsGet_eq {β : Type} (k : String) (v : β) :
    ∀ (l : List (String × β)) (acc : Option β),
      (∃ e ∈ l, e.1 = k) → (∀ e ∈ l, e.1 = k → e.2 = v) →
      l.foldl (fun acc p => if p.1 = k then some p.2 else acc) acc = some v
  | [], _, hex, _ => absurd hex (by simp)
  | e :: t, acc, hex, hall => by
    rw [List.foldl_cons]
    by_cases hek : e.1 = k
    · rw [if_pos hek]
      by_cases hex2 : ∃ g ∈ t, g.1 = k
      · exact foldl_jsGet_eq k v t _ hex2 (fun g hg => hall g (List.mem_cons_of_mem e hg))
      · push_neg at hex2
        rw [foldl_jsGet_skip k t _ hex2, hall e (List.mem_cons_self e t) hek]
    · rw [if_neg hek]
      have hex2 : ∃ g ∈ t, g.1 = k := by
        rcases hex with ⟨g, hg, hgk⟩
        rcases List.mem_cons.mp hg with rfl | hg2
        · exact absurd hgk hek
        · exact ⟨g, hg2, hgk⟩
      exact foldl_jsGet_eq k v t _ hex2 (fun g hg => hall g (List.mem_cons_of_mem e hg))

theorem jsGet_eq_of_all {β : Type} (k : String) (v : β) (l : List (String × β))
    (hex : ∃ e ∈ l, e.1 = k) (hall : ∀ e ∈ l, e.1 = k → e.2 = v) :
    jsGet l k = some v :=
  foldl_jsGet_eq k v l none hex hall

theorem targetForEntry_custom (locations : String → Option Dir) (k : String)
    (node : TreeNode) (d : Dir) (hloc : locations k = some d)
    (hoth : dirBasename d ≠ "others") (hbare : bareKeyPattern (dirBasename d) = false) :
    targetForEntry locations k node = d := by
  have hcond : (decide (dirBasename d ≠ "others") && !bareKeyPattern (dirBasename d)) = true := by
    rw [hbare]
    simp [hoth]
  unfold targetForEntry
  rw [hloc]
  dsimp only
  rw [if_pos hcond]

theorem folderMap_custom (treeMap : List (String × TreeNode)) (fs : FS) (k : String)
    (d : Dir) (hk : ∃ node, (k, node) ∈ treeMap)
    (hloc : existingIssueLocations fs k = some d)
    (hoth : dirBasename d ≠ "others") (hbare : bareKeyPattern (dirBasename d) = false) :
    jsGet (matchCustomFoldersWithIssues treeMap fs) k = some d := by
  unfold matchCustomFoldersWithIssues
  apply jsGet_eq_of_all
  · rcases hk with ⟨node, hnode⟩
    exact ⟨(k, targetForEntry (existingIssueLocations fs) k node),
      List.mem_map_of_mem _ hnode, rfl⟩
  · intro e he hek
    rcases List.mem_map.mp he with ⟨e0, he0, rfl⟩
    dsimp only at hek ⊢
    rw [hek]
    exact targetForEntry_custom _ k e0.2 d hloc hoth hbare

theorem mem_writeFileOp (fs : FS) (d : Dir) (n c : String) :
    ∀ f' ∈ writeFileOp fs d n c,
      (∃ g ∈ fs, f'.dir = g.dir ∧ f'.name = g.name) ∨ (f'.dir = d ∧ f'.name = n) := by
  unfold writeFileOp
  split
  · intro f' hf'
    rcases List.mem_map.mp hf' with ⟨g, hg, rfl⟩
    left
    refine ⟨g, hg, ?_, ?_⟩ <;> split <;> rfl
  · intro f' hf'
    rcases List.mem_append.mp hf' with h | h
    · exact Or.inl ⟨f', h, rfl, rfl⟩
    · right
      have : f' = ⟨d, n, c⟩ := by simpa using h
      rw [this]
      exact ⟨rfl, rfl⟩

theorem DirInv_writeFileOp_other (fs : FS) (k : String) (d : Dir) (d' : Dir) (n c : String)
    (hn : n ≠ k ++ ".md") (h : DirInv fs k d) : DirInv (writeFileOp fs d' n c) k d := by
  refine ⟨hasFileAt_writeFileOp_ne_name fs d' n c d _ (fun hh => hn hh.symm) h.1, ?_⟩
  intro f' hf' hname
  rcases mem_writeFileOp fs d' n c f' hf' with ⟨g, hg, hdir, hgname⟩ | ⟨_, hfn⟩
  · rw [hdir]
    exact h.2 g hg (hgname ▸ hname)
  · exact absurd (hfn ▸ hname) hn

theorem DirInv_writeFileOp_self (fs : FS) (k : String) (d : Dir) (c : String)
    (h : DirInv fs k d) : DirInv (writeFileOp fs d (k ++ ".md") c) k d := by
  refine ⟨hasFileAt_writeFileOp_self fs d (k ++ ".md") c, ?_⟩
  intro f' hf' hname
  rcases mem_writeFileOp fs d (k ++ ".md") c f' hf' with ⟨g, hg, hdir, hgname⟩ | ⟨hfd, _⟩
  · rw [hdir]
    exact h.2 g hg (hgname ▸ hname)
  · exact hfd

theorem DirInv_removeFileOp_other (fs : FS) (k : String) (d : Dir) (d' : Dir) (n : String)
    (hn : n ≠ k ++ ".md") (h : DirInv fs k d) : DirInv (removeFileOp fs d' n) k d := by
  refine ⟨hasFileAt_removeFileOp_ne_name fs d' n d _ (fun hh => hn hh.symm) h.1, ?_⟩
  intro f' hf' hname
  exact h.2 f' (List.mem_of_mem_filter hf') hname

theorem DirInv_moveTaskFile_other (F : Faults) (fs : FS) (k : String) (d : Dir)
    (fromFile : FsFile) (toDir : Dir) (toName : String)
    (hto : toName ≠ k ++ ".md") (hfrom : fromFile.name ≠ k ++ ".md")
    (h : DirInv fs k d) : DirInv (moveTaskFile F fs fromFile toDir toName) k d := by
  unfold moveTaskFile
  split
  · exact h
  · split
    · exact h
    · have h1 := DirInv_writeFileOp_other fs k d toDir toName fromFile.content hto h
      split
      · exact h1
      · exact DirInv_removeFileOp_other _ k d fromFile.dir fromFile.name hfrom h1

theorem getIssueFolderPath_custom (fs : FS) (issue : BacklogIssue)
    (allIssues : List BacklogIssue) (f : FsFile) (d : Dir)
    (hfind : findExistingTaskFile fs issue.issueKey = some f) (hdir : f.dir = d)
    (hoth : dirBasename d ≠ "others") (hbare : bareKeyPattern (dirBasename d) = false) :
    getIssueFolderPath fs issue allIssues = d := by
  unfold getIssueFolderPath
  rw [hfind]
  dsimp only
  rw [hdir]
  rw [if_pos (by rw [hbare]; simp [hoth])]

theorem syncStep_DirInv (L : List BacklogIssue) (fmap : List (String × Dir))
    (acc : SyncOutcome) (issue : BacklogIssue) (k : String) (d : Dir)
    (hmap : jsGet fmap k = some d)
    (hoth : dirBasename d ≠ "others") (hbare : bareKeyPattern (dirBasename d) = false)
    (h : DirInv acc.fs k d) : DirInv (syncStep [] L fmap acc issue).fs k d := by
  simp only [syncStep]
  split
  · exact h
  · by_cases hk : issue.issueKey = k
    · rcases find_of_hasFileNamed acc.fs issue.issueKey
        (hk ▸ hasFileNamed_of_hasFileAt _ _ _ h.1) with ⟨f, hfind⟩
      have hf := find_name _ _ _ hfind
      have hfd : f.dir = d := h.2 f hf.1 (hk ▸ hf.2)
      rw [hfind]
      dsimp only
      have htarget : (jsGet fmap issue.issueKey).getD ["others"] = d := by
        rw [hk, hmap]
        rfl
      rw [if_neg (by rw [htarget, hfd]; simp)]
      rw [fails_nil]
      simp only [Bool.false_eq_true, if_false]
      have hfolder := getIssueFolderPath_custom acc.fs issue L f d hfind hfd hoth hbare
      rw [hfolder]
      show DirInv (writeFileOp acc.fs d (issue.issueKey ++ ".md") _) k d
      rw [hk]
      exact DirInv_writeFileOp_self acc.fs k d _ h
    · have hne : issue.issueKey ++ ".md" ≠ k ++ ".md" :=
        fun hcon => hk (mdAppend_inj _ _ hcon)
      cases hfind : findExistingTaskFile acc.fs issue.issueKey with
      | none =>
        dsimp only
        rw [fails_nil]
        simp only [Bool.false_eq_true, if_false]
        exact DirInv_writeFileOp_other acc.fs k d _ _ _ hne h
      | some f =>
        have hf := find_name _ _ _ hfind
        dsimp only
        split
        · exact DirInv_moveTaskFile_other [] acc.fs k d f _ _ hne (hf.2 ▸ hne) h
        · rw [fails_nil]
          simp only [Bool.false_eq_true, if_false]
          exact DirInv_writeFileOp_other acc.fs k d _ _ _ hne h

theorem foldl_syncStep_DirInv (L : List BacklogIssue) (fmap : List (String × Dir))
    (k : String) (d : Dir) (hmap : jsGet fmap k = some d)
    (hoth : dirBasename d ≠ "others") (hbare : bareKeyPattern (dirBasename d) = false) :
    ∀ (L' : List BacklogIssue) (acc : SyncOutcome), DirInv acc.fs k d →
      DirInv (L'.foldl (syncStep [] L fmap) acc).fs k d
  | [], _, h => h
  | j :: js, acc, h => by
    rw [List.foldl_cons]
    exact foldl_syncStep_DirInv L fmap k d hmap hoth hbare js _
      (syncStep_DirInv L fmap acc j k d hmap hoth hbare h)

/-- C1 (amended): a file sitting in a custom directory — one whose
basename neither is the reserved `others` nor matches the bare
`PREFIX-NUMBER` pattern — is sticky: a sync pass assigns that same
directory to the issue, and the file is still there afterwards, whatever
the issue's current parent/child relationships.  (The reserved `others`
directory, although its basename does not match the bare pattern, is
*not* treated as custom: a relationship change does move a file out of
`others/`, see the counterexample.) -/
theorem syncIssues_custom_folder_sticky (issues : List BacklogIssue)
    (ignoreIssueTypes : List String) (idToKeyMap : List (Nat × String)) (fs : FS)
    (i : BacklogIssue) (d : Dir)
    (hmem : i ∈ filterIgnoredIssueTypes issues ignoreIssueTypes)
    (hpat : taskFileNamePattern (i.issueKey ++ ".md") = true)
    (hinv : DirInv fs i.issueKey d)
    (hoth : dirBasename d ≠ "others")
    (hbare : bareKeyPattern (dirBasename d) = false) :
    jsGet (matchCustomFoldersWithIssues
        (buildIssueTreeMap (filterIgnoredIssueTypes issues ignoreIssueTypes) idToKeyMap) fs)
      i.issueKey = some d ∧
    hasFileAt (syncIssuesF [] issues ignoreIssueTypes idToKeyMap fs).fs d
      (i.issueKey ++ ".md") := by
  have hloc := existingIssueLocations_const fs i.issueKey d hpat hinv.1 hinv.2
  have hjget : jsGet (matchCustomFoldersWithIssues
      (buildIssueTreeMap (filterIgnoredIssueTypes issues ignoreIssueTypes) idToKeyMap) fs)
      i.issueKey = some d := by
    refine folderMap_custom _ fs i.issueKey d ?_ hloc hoth hbare
    exact ⟨_, List.mem_map_of_mem _ hmem⟩
  refine ⟨hjget, ?_⟩
  unfold syncIssuesF
  dsimp only
  exact (foldl_syncStep_DirInv _ _ i.issueKey d hjget hoth hbare _
    ⟨fs, ⟨0, 0, 0⟩, none⟩ hinv).1

/-- C1 counterexample: the claim's definition of "custom directory" (any
basename not matching bare `PREFIX-NUMBER`) covers the reserved `others`
directory, but a file in `others/` *is* relocated by a sync when the
issue's relationships change: here `B-1` gains a child and its file is
moved from `others/` into the new `B-1/` folder. -/
theorem syncIssues_custom_folder_sticky_cx :
    let issP : BacklogIssue :=
      ⟨1, 1, "B-1", 1, ⟨"Task"⟩, "tP", "dP", ⟨"Normal"⟩, ⟨"Open"⟩, [], [], [],
        none, ⟨"u"⟩, "2024"⟩
    let issX : BacklogIssue :=
      ⟨2, 1, "B-2", 2, ⟨"Task"⟩, "tX", "dX", ⟨"Normal"⟩, ⟨"Open"⟩, [], [], [],
        some 1, ⟨"u"⟩, "2024"⟩
    let fs0 : FS := [⟨["others"], "B-1.md", "c1"⟩, ⟨["others"], "B-2.md", "c2"⟩]
    bareKeyPattern "others" = false ∧
    jsGet (matchCustomFoldersWithIssues (buildIssueTreeMap [issP, issX] []) fs0) "B-1" =
      some ["B-1"] ∧
    (syncIssuesF [] [issP, issX] [] [] fs0).fs.all
      (fun f => !(f.dir = ["others"] && f.name = "B-1.md")) = true := by
  refine ⟨by decide, by decide, by decide⟩

/-- Witness for the sticky-custom-folder theorem: an issue whose file the
user moved into `sprint-3/` keeps that folder through a sync, even though
the issue has a parent. -/
theorem syncIssues_custom_folder_sticky_witness :
    let issX : BacklogIssue :=
      ⟨2, 1, "B-2", 2, ⟨"Task"⟩, "tX", "dX", ⟨"Normal"⟩, ⟨"Open"⟩, [], [], [],
        some 1, ⟨"u"⟩, "2024"⟩
    let fsW : FS := [⟨["sprint-3"], "B-2.md", "c"⟩]
    jsGet (matchCustomFoldersWithIssues (buildIssueTreeMap [issX] [(1, "A-1")]) fsW)
      "B-2" = some ["sprint-3"] ∧
    hasFileAt (syncIssuesF [] [issX] [] [(1, "A-1")] fsW).fs ["sprint-3"] "B-2.md" := by
  intro issX fsW
  have h := syncIssues_custom_folder_sticky [issX] [] [(1, "A-1")] fsW issX ["sprint-3"]
    (by decide) (by decide) (by decide) (by decide) (by decide)
  exact h

end BacklogMcp
